import Mathlib

/-
  Verification development for the py-path-tracing renderer.

  The Python sources are shallowly embedded: float arithmetic is modelled by
  exact real arithmetic over ℝ, Python ints by ℕ/ℤ, and the float values
  produced for tile priorities by ℚ.  Calls to random.random() are modelled by
  an explicit tape of draw values consumed left to right, threaded through the
  computations as an index into the tape.  Python exceptions (in particular
  AttributeError raised by an attribute lookup that misses) are modelled with
  the Except monad.
-/

namespace PTrace

/-- The intersection epsilon, `_EPS = 0.0000001` from oop_primitives.py. -/
def EPS : ℝ := 0.0000001

/-- 3D vector of doubles (vector.py, class Vec3), modelled over ℝ. -/
@[ext]
structure Vec3 where
  x : ℝ
  y : ℝ
  z : ℝ

namespace Vec3

/-- Vec3.zero factory. -/
def zero : Vec3 := ⟨0, 0, 0⟩

/-- Vec3.versor factory: unit vector along the axis of the given index. -/
def versor (index : Fin 3) : Vec3 :=
  match index with
  | 0 => ⟨1, 0, 0⟩
  | 1 => ⟨0, 1, 0⟩
  | 2 => ⟨0, 0, 1⟩

noncomputable instance : Neg Vec3 := ⟨fun v => ⟨-v.x, -v.y, -v.z⟩⟩
noncomputable instance : Add Vec3 := ⟨fun a b => ⟨a.x + b.x, a.y + b.y, a.z + b.z⟩⟩
noncomputable instance : Sub Vec3 := ⟨fun a b => ⟨a.x - b.x, a.y - b.y, a.z - b.z⟩⟩

/-- Componentwise multiplication ( `__mul__` with a Vec3 argument). -/
noncomputable instance : Mul Vec3 := ⟨fun a b => ⟨a.x * b.x, a.y * b.y, a.z * b.z⟩⟩

/-- Scalar multiplication ( `__mul__` with a scalar argument). -/
noncomputable instance : HMul Vec3 ℝ Vec3 := ⟨fun v s => ⟨v.x * s, v.y * s, v.z * s⟩⟩

/-- Scalar division ( `__truediv__` with a scalar argument). -/
noncomputable instance : HDiv Vec3 ℝ Vec3 := ⟨fun v s => ⟨v.x / s, v.y / s, v.z / s⟩⟩

@[simp] theorem neg_x (v : Vec3) : (-v).x = -v.x := rfl
@[simp] theorem neg_y (v : Vec3) : (-v).y = -v.y := rfl
@[simp] theorem neg_z (v : Vec3) : (-v).z = -v.z := rfl
@[simp] theorem add_x (a b : Vec3) : (a + b).x = a.x + b.x := rfl
@[simp] theorem add_y (a b : Vec3) : (a + b).y = a.y + b.y := rfl
@[simp] theorem add_z (a b : Vec3) : (a + b).z = a.z + b.z := rfl
@[simp] theorem sub_x (a b : Vec3) : (a - b).x = a.x - b.x := rfl
@[simp] theorem sub_y (a b : Vec3) : (a - b).y = a.y - b.y := rfl
@[simp] theorem sub_z (a b : Vec3) : (a - b).z = a.z - b.z := rfl
@[simp] theorem mul_x (a b : Vec3) : (a * b).x = a.x * b.x := rfl
@[simp] theorem mul_y (a b : Vec3) : (a * b).y = a.y * b.y := rfl
@[simp] theorem mul_z (a b : Vec3) : (a * b).z = a.z * b.z := rfl
@[simp] theorem smul_x (v : Vec3) (s : ℝ) : (v * s).x = v.x * s := rfl
@[simp] theorem smul_y (v : Vec3) (s : ℝ) : (v * s).y = v.y * s := rfl
@[simp] theorem smul_z (v : Vec3) (s : ℝ) : (v * s).z = v.z * s := rfl
@[simp] theorem div_x (v : Vec3) (s : ℝ) : (v / s).x = v.x / s := rfl
@[simp] theorem div_y (v : Vec3) (s : ℝ) : (v / s).y = v.y / s := rfl
@[simp] theorem div_z (v : Vec3) (s : ℝ) : (v / s).z = v.z / s := rfl

/-- Dot product of two 3D vectors. -/
noncomputable def dot (a b : Vec3) : ℝ := a.x * b.x + a.y * b.y + a.z * b.z

/-- Cross product of two 3D vectors. -/
noncomputable def cross (a b : Vec3) : Vec3 :=
  ⟨a.y * b.z - a.z * b.y, a.z * b.x - a.x * b.z, a.x * b.y - a.y * b.x⟩

/-- Squared length of a 3D vector. -/
noncomputable def sqr_length (v : Vec3) : ℝ := v.dot v

/-- Length of a 3D vector. -/
noncomputable def length (v : Vec3) : ℝ := Real.sqrt v.sqr_length

/-- Normalised version of a 3D vector. -/
noncomputable def normalised (v : Vec3) : Vec3 := v / v.length

/-- Vec3.reflect: reflection of an incoming vector with respect to the surface
normal vector given by self. -/
noncomputable def reflect (self incoming : Vec3) : Vec3 :=
  incoming - self * (2.0 * self.dot incoming)

/-- Vec3.reflectance: scalar Fresnel reflectance from an incoming direction
with respect to the surface normal given by self, with total internal
reflection as an explicit branch returning 1. -/
noncomputable def reflectance (self incoming : Vec3) (ior_from ior_to : ℝ) : ℝ :=
  let ior_ratio := ior_from / ior_to
  let cos_theta_i := -(self.dot incoming)
  let sin_theta_sqr := ior_ratio ^ 2 * (1.0 - cos_theta_i ^ 2)
  if sin_theta_sqr > 1.0 then 1.0
  else
    let cos_theta_t := Real.sqrt (1.0 - sin_theta_sqr)
    let r_perpendicular := (ior_from * cos_theta_i - ior_to * cos_theta_t) /
                           (ior_from * cos_theta_i + ior_to * cos_theta_t)
    let r_parallel := (ior_to * cos_theta_i - ior_from * cos_theta_t) /
                      (ior_to * cos_theta_i + ior_from * cos_theta_t)
    (r_perpendicular ^ 2 + r_parallel ^ 2) / 2.0

end Vec3

/-- Orthonormal basis of 3-space (vector.py, class OrthonormalBasis). -/
structure OrthonormalBasis where
  x_axis : Vec3
  y_axis : Vec3
  z_axis : Vec3

namespace OrthonormalBasis

/-- OrthonormalBasis.transform: maps local coordinates into world space. -/
noncomputable def transform (b : OrthonormalBasis) (vec : Vec3) : Vec3 :=
  b.x_axis * vec.x + b.y_axis * vec.y + b.z_axis * vec.z

/-- The 2-letter axis-name pairs accepted by OrthonormalBasis.from_two. -/
inductive AxesPair | xy | yx | xz | zx | yz | zy

/-- OrthonormalBasis.from_two: derives the third axis as first×second
normalised, re-derives second as third×first, and assigns the three vectors to
the axes named by the pair (the remaining letter receives the third axis). -/
noncomputable def from_two (axes : AxesPair) (first second : Vec3) : OrthonormalBasis :=
  let third := (first.cross second).normalised
  let second := third.cross first
  match axes with
  | .xy => ⟨first, second, third⟩
  | .yx => ⟨second, first, third⟩
  | .xz => ⟨first, third, second⟩
  | .zx => ⟨second, third, first⟩
  | .yz => ⟨third, first, second⟩
  | .zy => ⟨third, second, first⟩

/-- OrthonormalBasis.from_z_axis: picks world X as the x-candidate unless the
given z axis is nearly parallel to it (dot above 0.99 in absolute value), in
which case world Y is used. -/
noncomputable def from_z_axis (z_axis : Vec3) : OrthonormalBasis :=
  let x_axis0 := Vec3.versor 0
  let x_axis1 := if |z_axis.dot x_axis0| > 0.99 then Vec3.versor 1 else x_axis0
  let x_axis := (x_axis1.cross z_axis).normalised
  let y_axis := (z_axis.cross x_axis).normalised
  ⟨x_axis, y_axis, z_axis⟩

end OrthonormalBasis

/-- sample_cone (vector.py): random direction from a cone given by its axis and
spread angle, driven by the (u, v) stratification parameters. -/
noncomputable def sample_cone (direction : Vec3) (angle u_pos v_pos : ℝ) : Vec3 :=
  if angle < 0.00000001 then direction
  else
    let angle1 := angle * (1.0 - (2.0 * Real.arccos u_pos / Real.pi))
    let radius := Real.sin angle1
    let z_scale := Real.cos angle1
    let random_angle := v_pos * 2.0 * Real.pi
    let basis := OrthonormalBasis.from_z_axis direction
    let raw_v : Vec3 := ⟨Real.cos random_angle * radius, Real.sin random_angle * radius, z_scale⟩
    (basis.transform raw_v).normalised

/-- sample_hemisphere (vector.py): cosine-weighted direction from the
hemisphere over the positive z axis of the given basis. -/
noncomputable def sample_hemisphere (basis : OrthonormalBasis) (u_pos v_pos : ℝ) : Vec3 :=
  let random_angle := 2.0 * Real.pi * u_pos
  let radius_sqr := v_pos
  let radius := Real.sqrt radius_sqr
  let raw_v : Vec3 := ⟨Real.cos random_angle * radius, Real.sin random_angle * radius,
                       Real.sqrt (1.0 - radius_sqr)⟩
  (basis.transform raw_v).normalised

/-- Oriented ray (raycast_base.py, class Ray). -/
structure Ray where
  origin : Vec3
  direction : Vec3

/-- Ray.point_at: position of the point on the ray at the given distance. -/
noncomputable def Ray.point_at (r : Ray) (distance : ℝ) : Vec3 :=
  r.origin + r.direction * distance

/-- Intersection record (raycast_base.py, class HitRecord). -/
@[ext]
structure HitRecord where
  distance : ℝ
  position : Vec3
  is_inside : Bool
  normal : Vec3

/-- Python exceptions relevant to the embedded code paths. -/
inductive PyErr
  | attributeError
deriving DecidableEq

/-- Material properties (scene_settings.py, class MaterialData). -/
structure MaterialData where
  emission : Vec3
  diffuse : Vec3
  refraction_index : ℝ
  reflectivity : ℝ
  reflection_cone_angle : ℝ

/-- Materials (oop_material.py): the two concrete subclasses of Material. -/
inductive Material
  | matte (material_data : MaterialData)
  | shiny (material_data : MaterialData)

namespace Material

/-- The material_data attribute shared by both subclasses. -/
def material_data : Material → MaterialData
  | .matte md => md
  | .shiny md => md

/-- Material.preview_colour: the raw diffuse colour. -/
noncomputable def preview_colour (m : Material) : Vec3 := m.material_data.diffuse

/-- Material.total_emission: material emission plus the inbound radiance. -/
noncomputable def total_emission (m : Material) (inbound : Vec3) : Vec3 :=
  m.material_data.emission + inbound

/-- The attribute names defined in the class body of Material (and its
subclasses) in oop_material.py.  Python resolves a method call by looking the
name up among these; a name not in the list raises AttributeError. -/
def methodNames : List String :=
  ["material_data", "preview_colour", "total_emission", "sample"]

/-- material_from_data (oop_material.py): reflectivity ≥ 0 selects
ShinyMaterial, otherwise MatteMaterial. -/
noncomputable def from_data (md : MaterialData) : Material :=
  if md.reflectivity ≥ 0.0 then .shiny md else .matte md

/-- A radiance sampling callback (Ray → Vec3 in the source); it threads the
random-tape position and may propagate a Python exception. -/
abbrev Sampler : Type := Ray → ℕ → Except PyErr Vec3 × ℕ

/-- MatteMaterial.sample / ShinyMaterial.sample: Russian-roulette choice
between a cone-jittered specular reflection and a cosine-weighted diffuse
bounce.  The matte variant derives the specular probability from Fresnel
reflectance (indices swapped for inside hits); the shiny variant uses the
configured reflectivity. -/
noncomputable def sample (m : Material) (hit_record : HitRecord) (incoming_ray : Ray)
    (radiance_sampler : Sampler) (u_pos v_pos prob : ℝ) (pos : ℕ) :
    Except PyErr Vec3 × ℕ :=
  let md := m.material_data
  let specular_prob :=
    match m with
    | .matte _ =>
      let iors : ℝ × ℝ :=
        if hit_record.is_inside then (md.refraction_index, 1.0) else (1.0, md.refraction_index)
      hit_record.normal.reflectance incoming_ray.direction iors.1 iors.2
    | .shiny _ => md.reflectivity
  if prob < specular_prob then
    radiance_sampler
      (Ray.mk hit_record.position
        (sample_cone (hit_record.normal.reflect incoming_ray.direction)
          md.reflection_cone_angle u_pos v_pos)) pos
  else
    let basis := OrthonormalBasis.from_z_axis hit_record.normal
    let r := radiance_sampler
      (Ray.mk hit_record.position (sample_hemisphere basis u_pos v_pos)) pos
    (r.1.map (fun c => md.diffuse * c), r.2)

end Material

/-- Sphere primitive (oop_primitives.py, class Sphere). -/
structure Sphere where
  centre : Vec3
  radius : ℝ
  material : Material

/-- Sphere.intersect: solves the quadratic for the ray-sphere intersection and
returns the closer admissible root, with the normal flipped for inside hits. -/
noncomputable def Sphere.intersect (s : Sphere) (ray : Ray) : Option HitRecord :=
  let orig := s.centre - ray.origin
  let r_sqr := s.radius ^ 2
  let b_coeff := orig.dot ray.direction
  let discr := b_coeff ^ 2 - orig.sqr_length + r_sqr
  if discr < 0.0 then none
  else
    let discr1 := Real.sqrt discr
    let t_neg := b_coeff - discr1
    let t_pos := b_coeff + discr1
    if t_neg < EPS ∧ t_pos < EPS then none
    else
      let t_val := if t_neg > EPS then t_neg else t_pos
      let hit_pos := ray.point_at t_val
      let hit_norm := (hit_pos - s.centre).normalised
      let hit_inside := hit_norm.dot ray.direction > 0.0
      let hit_norm1 := if hit_inside then -hit_norm else hit_norm
      some ⟨t_val, hit_pos, hit_inside, hit_norm1⟩

/-- Triangle primitive (oop_primitives.py, class Triangle). -/
structure Triangle where
  vertices : Fin 3 → Vec3
  material : Material
  normals : Fin 3 → Vec3

namespace Triangle

/-- Triangle.face_u: first face coordinate vector. -/
noncomputable def face_u (t : Triangle) : Vec3 := t.vertices 1 - t.vertices 0

/-- Triangle.face_v: second face coordinate vector. -/
noncomputable def face_v (t : Triangle) : Vec3 := t.vertices 2 - t.vertices 0

/-- Triangle.face_normal: normal vector to the triangle face. -/
noncomputable def face_normal (t : Triangle) : Vec3 :=
  (t.face_u.cross t.face_v).normalised

/-- Constructor with the normals argument omitted: each vertex normal defaults
to the face normal. -/
noncomputable def of_vertices (vertices : Fin 3 → Vec3) (material : Material) : Triangle :=
  let t0 : Triangle := ⟨vertices, material, fun _ => Vec3.zero⟩
  ⟨vertices, material, fun _ => t0.face_normal⟩

/-- Triangle.intersect: Möller–Trumbore intersection with barycentric
interpolation of the vertex normals, flipped on backface hits. -/
noncomputable def intersect (t : Triangle) (ray : Ray) : Option HitRecord :=
  let p_vec := ray.direction.cross t.face_v
  let det := t.face_u.dot p_vec
  if |det| < EPS then none
  else
    let is_backface := det < EPS
    let t_vec := ray.origin - t.vertices 0
    let u_pos := t_vec.dot p_vec / det
    let q_vec := t_vec.cross t.face_u
    let v_pos := ray.direction.dot q_vec / det
    if u_pos < 0.0 ∨ u_pos > 1.0 ∨ v_pos < 0.0 ∨ u_pos + v_pos > 1.0 then none
    else
      let t_val := t.face_v.dot q_vec / det
      if t_val < EPS then none
      else
        let delta_u_norm := t.normals 1 - t.normals 0
        let delta_v_norm := t.normals 2 - t.normals 0
        let hit_norm := (delta_u_norm * u_pos + delta_v_norm * v_pos + t.normals 0).normalised
        let hit_norm1 := if is_backface then -hit_norm else hit_norm
        some ⟨t_val, ray.point_at t_val, is_backface, hit_norm1⟩

end Triangle

/-- Geometry primitives (oop_primitives.py): the concrete subclasses of
Primitive. -/
inductive Primitive
  | sphere (s : Sphere)
  | triangle (t : Triangle)

namespace Primitive

/-- The material attribute of the primitive. -/
def material : Primitive → Material
  | .sphere s => s.material
  | .triangle t => t.material

/-- Primitive.intersect: dispatches to the concrete intersection routine. -/
noncomputable def intersect : Primitive → Ray → Option HitRecord
  | .sphere s, ray => s.intersect ray
  | .triangle t, ray => t.intersect ray

/-- Primitive.intersect_ex: intersection together with the material of the
primitive hit. -/
noncomputable def intersect_ex (p : Primitive) (ray : Ray) : Option (HitRecord × Material) :=
  match p.intersect ray with
  | none => none
  | some hit => some (hit, p.material)

end Primitive

/-- Scene (oop_scene.py): an ordered collection of primitives plus an
environment colour. -/
structure Scene where
  primitives : List Primitive
  environment_colour : Vec3

/-- The loop body of Scene.intersect_ex: keep the closer of the running best
hit and the hit of the next primitive (strict comparison, so the earlier
primitive wins ties). -/
noncomputable def Scene.intersectStep (ray : Ray)
    (result : Option (HitRecord × Material)) (primitive : Primitive) :
    Option (HitRecord × Material) :=
  match primitive.intersect_ex ray with
  | none => result
  | some hit =>
    match result with
    | none => some hit
    | some best => if hit.1.distance < best.1.distance then some hit else result

/-- Scene.intersect_ex: linear scan keeping the hit of smallest distance.  The
source seeds the scan with a record of distance +∞ and returns None when the
final distance is still infinite; since every primitive hit record carries a
finite real distance, the seed is modelled by `none` and the final isinf test
by returning the fold result unchanged. -/
noncomputable def Scene.intersect_ex (s : Scene) (ray : Ray) :
    Option (HitRecord × Material) :=
  s.primitives.foldl (Scene.intersectStep ray) none

/-- Camera (camera.py). -/
structure Camera where
  position : Vec3
  basis : OrthonormalBasis
  aspect_ratio : ℝ
  camera_plane_dist : ℝ
  reciprocal_height : ℝ
  reciprocal_width : ℝ
  aperture_radius : ℝ
  focal_distance : ℝ

namespace Camera

/-- Camera constructor: derives the basis from the eye, look-at and up vectors
via from_two with the axis pair zy, and the camera plane distance from the
vertical field of view given in degrees. -/
noncomputable def create (eye look_at up : Vec3) (width height : ℕ)
    (vertical_fov : ℝ) : Camera :=
  { position := eye
    basis := OrthonormalBasis.from_two .zy ((look_at - eye).normalised) up
    aspect_ratio := (width : ℝ) / (height : ℝ)
    camera_plane_dist := 1.0 / Real.tan (vertical_fov * Real.pi / 360.0)
    reciprocal_height := 1.0 / (height : ℝ)
    reciprocal_width := 1.0 / (width : ℝ)
    aperture_radius := 0.0
    focal_distance := 0.0 }

/-- Camera._ray_from_unit: ray through normalized device coordinates, with a
depth-of-field perturbation when an aperture radius is set.  The two
random.uniform draws are modelled as tape values scaled to their ranges. -/
noncomputable def ray_from_unit (c : Camera) (tape : ℕ → ℝ) (x_pos y_pos : ℝ)
    (pos : ℕ) : Ray × ℕ :=
  let xxx := c.basis.x_axis * (-x_pos) * c.aspect_ratio
  let yyy := c.basis.y_axis * (-y_pos)
  let zzz := c.basis.z_axis * c.camera_plane_dist
  let direction := (xxx + yyy + zzz).normalised
  if c.aperture_radius = 0 then (Ray.mk c.position direction, pos)
  else
    let focal_pt := c.position + direction * c.focal_distance
    let angle := tape pos * (2.0 * Real.pi)
    let radius := tape (pos + 1) * c.aperture_radius
    let origin := c.position + c.basis.x_axis * Real.cos angle * radius +
                  c.basis.y_axis * Real.sin angle * radius
    (Ray.mk origin ((focal_pt - origin).normalised), pos + 2)

/-- Camera.get_ray: jitters the pixel coordinates by two independent uniform
draws and maps them to normalized device coordinates in [−1, 1]. -/
noncomputable def get_ray (c : Camera) (tape : ℕ → ℝ) (px_x px_y : ℕ)
    (pos : ℕ) : Ray × ℕ :=
  let xxx := ((px_x : ℝ) + tape pos) * c.reciprocal_width
  let yyy := ((px_y : ℝ) + tape (pos + 1)) * c.reciprocal_height
  c.ray_from_unit tape (2.0 * xxx - 1.0) (2.0 * yyy - 1.0) (pos + 2)

end Camera

/-- Accumulable image (image_output.py, class AccumulableImage): per-pixel
running colour sums and integer sample counts. -/
@[ext]
structure AccumulableImage where
  width : ℕ
  height : ℕ
  image : ℕ → ℕ → Vec3
  sample_counts : ℕ → ℕ → ℤ

namespace AccumulableImage

/-- Constructor: zero-filled buffers of the given dimensions. -/
noncomputable def init (width height : ℕ) : AccumulableImage :=
  ⟨width, height, fun _ _ => Vec3.zero, fun _ _ => 0⟩

/-- AccumulableImage.add_samples: adds colour·count to the running sum and
count to the sample count at the given pixel. -/
noncomputable def add_samples (img : AccumulableImage) (x_pos y_pos : ℕ)
    (colour : Vec3) (sample_count : ℤ) : AccumulableImage :=
  { img with
    image := fun x y =>
      if x = x_pos ∧ y = y_pos then img.image x y + colour * (sample_count : ℝ)
      else img.image x y
    sample_counts := fun x y =>
      if x = x_pos ∧ y = y_pos then img.sample_counts x y + sample_count
      else img.sample_counts x y }

/-- AccumulableImage.__getitem__: pixel colour adjusted by the number of
samples accumulated, dividing by max(1, count). -/
noncomputable def getPixel (img : AccumulableImage) (x y : ℕ) : Vec3 :=
  let divisor := max 1 (img.sample_counts x y)
  img.image x y / (divisor : ℝ)

/-- AccumulableImage.__iadd__: requires identical dimensions (the source
asserts them; a failed assertion is modelled by `none`) and sums both the
colour buffer and the count buffer elementwise. -/
noncomputable def iadd (self other : AccumulableImage) : Option AccumulableImage :=
  if self.width = other.width ∧ self.height = other.height then
    some { self with
      image := fun x y => self.image x y + other.image x y
      sample_counts := fun x y => self.sample_counts x y + other.sample_counts x y }
  else none

end AccumulableImage

/-- Renderer parameters (DEFAULT_RENDERER_PARAMS keys in oop_renderer.py). -/
structure RendererParams where
  width : ℕ
  height : ℕ
  preview : Bool
  samples_per_pixel : ℕ
  max_cpus : ℕ
  max_depth : ℕ
  first_bounce_u_samples : ℕ
  first_bounce_v_samples : ℕ

/-- Renderer (oop_renderer.py). -/
structure Renderer where
  scene : Scene
  camera : Camera
  params : RendererParams

namespace Renderer

/-- Renderer.radiance: recursive radiance estimate for a ray at a depth.  Each
loop iteration draws three tape values (u jitter, v jitter, probability); the
loop runs over `zip(range(u_samples), range(v_samples))` exactly as in the
source.  The closing call is written `material.totalEmission(...)` in the
source while the Material class defines `total_emission`; the lookup of the
name among the class attribute names is modelled explicitly and its miss
raises AttributeError. -/
noncomputable def radiance (R : Renderer) (tape : ℕ → ℝ) (ray : Ray)
    (depth : ℕ) (pos : ℕ) : Except PyErr Vec3 × ℕ :=
  if h : depth ≥ R.params.max_depth then (.ok Vec3.zero, pos)
  else
    let u_samples := if depth = 0 then R.params.first_bounce_u_samples else 1
    let v_samples := if depth = 0 then R.params.first_bounce_v_samples else 1
    match R.scene.intersect_ex ray with
    | none => (.ok R.scene.environment_colour, pos)
    | some hitex =>
      let material := hitex.2
      if R.params.preview then (.ok material.preview_colour, pos)
      else
        let hit := hitex.1
        let step : Except PyErr Vec3 × ℕ → ℕ × ℕ → Except PyErr Vec3 × ℕ :=
          fun acc uv =>
            match acc with
            | (.error e, p) => (.error e, p)
            | (.ok result, p) =>
              let u_pos := ((uv.1 : ℝ) + tape p) / (u_samples : ℝ)
              let v_pos := ((uv.2 : ℝ) + tape (p + 1)) / (v_samples : ℝ)
              let prob := tape (p + 2)
              let s := material.sample hit ray
                (fun r q => R.radiance tape r (depth + 1) q) u_pos v_pos prob (p + 3)
              match s with
              | (.error e, q) => (.error e, q)
              | (.ok sv, q) => (.ok (result + sv), q)
        match ((List.range u_samples).zip (List.range v_samples)).foldl step
            (.ok Vec3.zero, pos) with
        | (.error e, p) => (.error e, p)
        | (.ok result, p) =>
          if "totalEmission" ∈ Material.methodNames then
            (.ok (material.total_emission (result / ((u_samples * v_samples : ℕ) : ℝ))), p)
          else (.error .attributeError, p)
termination_by R.params.max_depth - depth
decreasing_by omega

/-- Renderer.render: for each sampling pass, iterates
`zip(range(width), range(height))` drawing one camera ray per visited pixel
and accumulating its radiance with weight 1. -/
noncomputable def render (R : Renderer) (tape : ℕ → ℝ) :
    Except PyErr AccumulableImage × ℕ :=
  let height := R.params.height
  let width := R.params.width
  let samples := R.params.samples_per_pixel
  let output := AccumulableImage.init width height
  (List.range samples).foldl
    (fun acc _ =>
      match acc with
      | (.error e, p) => (.error e, p)
      | (.ok _, _) =>
        ((List.range width).zip (List.range height)).foldl
          (fun acc2 xy =>
            match acc2 with
            | (.error e, p) => (.error e, p)
            | (.ok out2, p) =>
              let rp := R.camera.get_ray tape xy.1 xy.2 p
              match R.radiance tape rp.1 0 rp.2 with
              | (.error e, q) => (.error e, q)
              | (.ok c, q) => (.ok (out2.add_samples xy.1 xy.2 c 1), q))
          acc
      )
    (.ok output, 0)

end Renderer

/-- Python range(0, stop, step) for a positive step: the multiples of step
below stop, in increasing order. -/
def rangeStep (stop step : ℕ) : List ℕ :=
  (List.range ((stop + step - 1) / step)).map (· * step)

/-- Tile descriptor (the dict emitted by Renderer.generate_tiles). -/
structure Tile where
  x_range : ℕ × ℕ
  y_range : ℕ × ℕ
  samples : ℕ
  sample_ix : ℕ
  dist_prio : ℤ
  rand_prio : ℚ
deriving DecidableEq, Repr

/-- The dist_prio computation of generate_tiles:
`int(((x_mid - x_centre) ** 2) + ((y_mid - y_centre) ** 2))` with
`x_mid = int(x_beg + x_end / 2)` and `x_centre = width / 2` (and likewise for
y).  Note the source computes `x_beg + (x_end / 2)`, not the midpoint of the
tile.  All truncated quantities are nonnegative, so Python int() truncation is
the floor. -/
def tileDistPrio (x_beg x_end y_beg y_end width height : ℕ) : ℤ :=
  let x_centre : ℚ := (width : ℚ) / 2
  let y_centre : ℚ := (height : ℚ) / 2
  let x_mid : ℤ := Rat.floor ((x_beg : ℚ) + (x_end : ℚ) / 2)
  let y_mid : ℤ := Rat.floor ((y_beg : ℚ) + (y_end : ℚ) / 2)
  Rat.floor (((x_mid : ℚ) - x_centre) ^ 2 + ((y_mid : ℚ) - y_centre) ^ 2)

/-- The tile-generation triple loop of Renderer.generate_tiles, producing for
each tile a function awaiting its rand_prio draw; the draws are attached
afterwards in generation order, matching the one random.random() call per
appended tile. -/
def generateTilesBody (x_size y_size sample_count samples_per_tile width height : ℕ) :
    List (ℚ → Tile) :=
  (rangeStep height y_size).flatMap (fun y_pos =>
    let y_beg := y_pos
    let y_end := min (y_pos + y_size) height
    (rangeStep width x_size).flatMap (fun x_pos =>
      let x_beg := x_pos
      let x_end := min (x_pos + x_size) width
      let dist_sqr := tileDistPrio x_beg x_end y_beg y_end width height
      (rangeStep sample_count samples_per_tile).map (fun samples =>
        let n_sampl := min (samples + samples_per_tile) sample_count - samples
        fun rand =>
          { x_range := (x_beg, x_end)
            y_range := (y_beg, y_end)
            samples := n_sampl
            sample_ix := samples
            dist_prio := dist_sqr
            rand_prio := rand })))

/-- The ascending lexicographic comparison on (sample_ix, dist_prio, rand_prio)
used as the sort key of generate_tiles. -/
def tileLE (a b : Tile) : Bool :=
  (a.sample_ix < b.sample_ix) ||
  (a.sample_ix == b.sample_ix &&
    ((a.dist_prio < b.dist_prio) ||
     (a.dist_prio == b.dist_prio && decide (a.rand_prio ≤ b.rand_prio))))

/-- Renderer.generate_tiles with both width and height supplied: generates the
tiles, attaches the random tie-break draws in generation order, and returns
the list sorted by (sample_ix, dist_prio, rand_prio) ascending. -/
def generateTiles (x_size y_size sample_count samples_per_tile width height : ℕ)
    (tape : ℕ → ℚ) : List Tile :=
  (((generateTilesBody x_size y_size sample_count samples_per_tile width height).enum).map
    (fun p => p.2 (tape p.1))).mergeSort tileLE

/-- Renderer.generate_tiles including the width/height default handling: the
declared defaults are −1, and a negative value falls back to
`self.params.width` / `self.params.height`.  Every renderer in this repository
holds its params as a Python dict (DEFAULT_RENDERER_PARAMS or the dict loaded
by load_params), and attribute access on a dict raises AttributeError, before
any tile is produced. -/
def generate_tiles_checked (x_size y_size sample_count samples_per_tile : ℕ)
    (width height : ℤ) (tape : ℕ → ℚ) : Except PyErr (List Tile) :=
  if width < 0 then .error .attributeError
  else if height < 0 then .error .attributeError
  else .ok (generateTiles x_size y_size sample_count samples_per_tile
    width.toNat height.toNat tape)

/-- Predicate stating that a tile descriptor covers the pixel (x, y) and the
sample index s: the pixel lies in the tile bounds and s in its sample
sub-range [sample_ix, sample_ix + samples). -/
def tileCovers (t : Tile) (x y s : ℕ) : Bool :=
  decide (t.x_range.1 ≤ x ∧ x < t.x_range.2 ∧
          t.y_range.1 ≤ y ∧ y < t.y_range.2 ∧
          t.sample_ix ≤ s ∧ s < t.sample_ix + t.samples)

/-- The priority key as claimed: the squared pixel distance from the tile
centre ((x_beg + x_end)/2, (y_beg + y_end)/2) to the image centre
(width/2, height/2), truncated to an integer. -/
def tileCentreDistClaim (x_range y_range : ℕ × ℕ) (width height : ℕ) : ℤ :=
  Rat.floor ((((x_range.1 : ℚ) + (x_range.2 : ℚ)) / 2 - (width : ℚ) / 2) ^ 2 +
             (((y_range.1 : ℚ) + (y_range.2 : ℚ)) / 2 - (height : ℚ) / 2) ^ 2)

/-- The ascending lexicographic order on the key triple
(sample_ix, dist_prio, rand_prio), as a Prop-valued relation. -/
def tileKeyLE (a b : Tile) : Prop :=
  a.sample_ix < b.sample_ix ∨
  (a.sample_ix = b.sample_ix ∧
    (a.dist_prio < b.dist_prio ∨
     (a.dist_prio = b.dist_prio ∧ a.rand_prio ≤ b.rand_prio)))

/-- A concrete matte material (diffuse grey, defaults elsewhere). -/
noncomputable def mat1 : Material :=
  .matte ⟨Vec3.zero, ⟨0.2, 0.2, 0.2⟩, 1.0, -1.0, 0.0⟩

/-- The sphere of the unit test: centre (0, 0, 30), radius 10. -/
noncomputable def sphere1 : Sphere := ⟨⟨0, 0, 30⟩, 10, mat1⟩

/-- A scene holding only sphere1. -/
noncomputable def scene1 : Scene := ⟨[.sphere sphere1], ⟨0.5, 0.6, 0.7⟩⟩

/-- The ray from the origin along +z. -/
noncomputable def ray0 : Ray := ⟨Vec3.zero, ⟨0, 0, 1⟩⟩

/-- The hit record of ray0 against sphere1. -/
noncomputable def hr1 : HitRecord := ⟨20, ⟨0, 0, 20⟩, false, ⟨0, 0, -1⟩⟩

/-- A triangle with adversarial custom vertex normals, all equal to (0,0,1),
facing along the +z test ray. -/
noncomputable def triBad : Triangle :=
  ⟨fun i => match i with
    | 0 => ⟨0, 0, 3⟩
    | 1 => ⟨0, 1, 3⟩
    | 2 => ⟨1, 1, 3⟩,
   mat1, fun _ => ⟨0, 0, 1⟩⟩

/-- A triangle lying in the plane z = EPS, with default (face) normals, hit by
the +z test ray at distance exactly EPS. -/
noncomputable def triEps : Triangle :=
  ⟨fun i => match i with
    | 0 => ⟨0, 0, EPS⟩
    | 1 => ⟨0, 1, EPS⟩
    | 2 => ⟨1, 1, EPS⟩,
   mat1, fun _ => ⟨0, 0, -1⟩⟩

/-- The camera of the example scenes (eye at (0, 0, -3.2), looking at the
origin, vertical fov 40 degrees). -/
noncomputable def camera0 : Camera :=
  Camera.create ⟨0, 0, -3.2⟩ Vec3.zero ⟨0, 1, 0⟩ 4 4 40

/-- Parameters with max_depth 1 and 2×3 first-bounce samples. -/
def params1 : RendererParams := ⟨4, 4, false, 1, 1, 1, 2, 3⟩

/-- A renderer over the one-sphere scene. -/
noncomputable def R1 : Renderer := ⟨scene1, camera0, params1⟩

/-- An empty scene: every ray escapes to the environment colour. -/
noncomputable def scene2 : Scene := ⟨[], ⟨0.5, 0.6, 0.7⟩⟩

/-- Parameters for a 2×2 render with one sampling pass. -/
def params2 : RendererParams := ⟨2, 2, false, 1, 1, 1, 1, 1⟩

/-- A renderer over the empty scene. -/
noncomputable def R2 : Renderer := ⟨scene2, camera0, params2⟩

/-- A concrete accumulable image used to instantiate merge theorems. -/
noncomputable def imgZ : AccumulableImage :=
  (AccumulableImage.init 2 3).add_samples 0 1 ⟨1, 2, 3⟩ 5

/-- The elementwise doubling of imgZ, the expected result of merging imgZ with
itself. -/
noncomputable def imgZZ : AccumulableImage :=
  { imgZ with
    image := fun x y => imgZ.image x y + imgZ.image x y
    sample_counts := fun x y => imgZ.sample_counts x y + imgZ.sample_counts x y }

section Theorems

open PTrace

/-- Vector addition on the embedded Vec3 is commutative. -/
theorem Vec3.add_comm (a b : Vec3) : a + b = b + a := by
  ext <;> simp <;> ring

/-- Vector addition on the embedded Vec3 is associative. -/
theorem Vec3.add_assoc (a b c : Vec3) : a + b + c = a + (b + c) := by
  ext <;> simp <;> ring

/-- Adding a vector to itself equals scaling it by two. -/
theorem Vec3.add_self (a : Vec3) : a + a = a * (2 : ℝ) := by
  ext <;> simp <;> ring

/-- C5: Fresnel reflectance returns exactly 0 at normal incidence between two
equal (positive) refraction indices, and returns exactly 1, as a defined
branch, whenever (ior_from/ior_to)²·(1−cosθi²) exceeds 1 (total internal
reflection). -/
theorem C5_reflectance_normal_incidence_and_tir (normal incoming : Vec3)
    (ior_from ior_to : ℝ) :
    (normal.dot incoming = -1 → ior_from = ior_to → 0 < ior_to →
      normal.reflectance incoming ior_from ior_to = 0) ∧
    ((ior_from / ior_to) ^ 2 * (1 - (normal.dot incoming) ^ 2) > 1 →
      normal.reflectance incoming ior_from ior_to = 1) := by
  have hsq : (-(normal.dot incoming)) ^ 2 = (normal.dot incoming) ^ 2 := by ring
  constructor
  · intro hdot hft ht
    subst hft
    unfold PTrace.Vec3.reflectance
    rw [hdot]
    norm_num
  · intro htir
    unfold PTrace.Vec3.reflectance
    rw [if_pos]
    · norm_num
    · rw [hsq]
      simp only [show (1.0 : ℝ) = 1 from by norm_num]
      exact htir

/-- C5 witness: concrete normal-incidence and total-internal-reflection
inputs. -/
theorem C5_witness :
    PTrace.Vec3.reflectance ⟨0, 0, 1⟩ ⟨0, 0, -1⟩ 1.5 1.5 = 0 ∧
    PTrace.Vec3.reflectance ⟨0, 0, 1⟩ ⟨0.8, 0, -0.6⟩ 2 1 = 1 := by
  constructor
  · exact (C5_reflectance_normal_incidence_and_tir ⟨0, 0, 1⟩ ⟨0, 0, -1⟩ 1.5 1.5).1
      (by norm_num [PTrace.Vec3.dot]) rfl (by norm_num)
  · exact (C5_reflectance_normal_incidence_and_tir ⟨0, 0, 1⟩ ⟨0.8, 0, -0.6⟩ 2 1).2
      (by norm_num [PTrace.Vec3.dot])

/-- C9: the image merge is defined exactly for identical dimensions, adds both
buffers elementwise, is commutative and associative as an operation on the
(sum, count) state, and merging an image with a copy of itself doubles both
buffers. -/
theorem C9_image_merge (a b c : AccumulableImage) :
    ((a.iadd b).isSome ↔ (a.width = b.width ∧ a.height = b.height)) ∧
    (∀ m, a.iadd b = some m →
      m.width = a.width ∧ m.height = a.height ∧
      ∀ x y, m.image x y = a.image x y + b.image x y ∧
             m.sample_counts x y = a.sample_counts x y + b.sample_counts x y) ∧
    a.iadd b = b.iadd a ∧
    (a.iadd b).bind (fun m => m.iadd c) = (b.iadd c).bind (fun m => a.iadd m) ∧
    (∀ m, a.iadd a = some m →
      ∀ x y, m.image x y = a.image x y * (2 : ℝ) ∧
             m.sample_counts x y = 2 * a.sample_counts x y) := by
  refine ⟨?_, ?_, ?_, ?_, ?_⟩
  · unfold PTrace.AccumulableImage.iadd
    by_cases h : a.width = b.width ∧ a.height = b.height <;> simp [h]
  · intro m hm
    unfold PTrace.AccumulableImage.iadd at hm
    by_cases h : a.width = b.width ∧ a.height = b.height
    · rw [if_pos h] at hm
      have hm' := Option.some.inj hm
      subst hm'
      exact ⟨rfl, rfl, fun x y => ⟨rfl, rfl⟩⟩
    · rw [if_neg h] at hm
      cases hm
  · unfold PTrace.AccumulableImage.iadd
    by_cases h : a.width = b.width ∧ a.height = b.height
    · have h' : b.width = a.width ∧ b.height = a.height := ⟨h.1.symm, h.2.symm⟩
      rw [if_pos h, if_pos h']
      refine congrArg some ?_
      refine AccumulableImage.ext h.1 h.2 ?_ ?_
      · funext x y
        exact PTrace.Vec3.add_comm _ _
      · funext x y
        exact add_comm _ _
    · have h' : ¬(b.width = a.width ∧ b.height = a.height) := by
        intro hc; exact h ⟨hc.1.symm, hc.2.symm⟩
      rw [if_neg h, if_neg h']
  · unfold PTrace.AccumulableImage.iadd
    by_cases h1 : a.width = b.width ∧ a.height = b.height <;>
      by_cases h2 : b.width = c.width ∧ b.height = c.height
    · have h3 : a.width = c.width ∧ a.height = c.height :=
        ⟨h1.1.trans h2.1, h1.2.trans h2.2⟩
      rw [if_pos h1, if_pos h2]
      simp only [Option.some_bind]
      rw [if_pos (show a.width = c.width ∧ a.height = c.height from h3),
          if_pos (show a.width = b.width ∧ a.height = b.height from h1)]
      refine congrArg some ?_
      refine AccumulableImage.ext rfl rfl ?_ ?_
      · funext x y
        exact PTrace.Vec3.add_assoc _ _ _
      · funext x y
        exact add_assoc _ _ _
    · rw [if_pos h1, if_neg h2]
      simp only [Option.some_bind, Option.none_bind]
      rw [if_neg]
      intro hc
      exact h2 ⟨h1.1.symm.trans hc.1, h1.2.symm.trans hc.2⟩
    · rw [if_neg h1, if_pos h2]
      simp only [Option.some_bind, Option.none_bind]
      rw [if_neg]
      intro hc
      exact h1 ⟨hc.1, hc.2⟩
    · rw [if_neg h1, if_neg h2]
      simp
  · intro m hm
    unfold PTrace.AccumulableImage.iadd at hm
    rw [if_pos ⟨rfl, rfl⟩] at hm
    have hm' := Option.some.inj hm
    subst hm'
    intro x y
    exact ⟨PTrace.Vec3.add_self _, (two_mul _).symm⟩

/-- C9 witness: instantiation at a concrete image, discharging the merge
hypotheses by evaluation of iadd on it. -/
theorem C9_witness :
    imgZZ.width = imgZ.width ∧ imgZZ.height = imgZ.height ∧
    (imgZZ.image 0 1 = imgZ.image 0 1 + imgZ.image 0 1 ∧
     imgZZ.sample_counts 0 1 = imgZ.sample_counts 0 1 + imgZ.sample_counts 0 1) ∧
    (imgZZ.image 0 1 = imgZ.image 0 1 * (2 : ℝ) ∧
     imgZZ.sample_counts 0 1 = 2 * imgZ.sample_counts 0 1) := by
  have hsome : imgZ.iadd imgZ = some imgZZ := rfl
  have h2 := (C9_image_merge imgZ imgZ imgZ).2.1 imgZZ hsome
  have h5 := (C9_image_merge imgZ imgZ imgZ).2.2.2.2 imgZZ hsome
  exact ⟨h2.1, h2.2.1, h2.2.2 0 1, h5 0 1⟩

/-- C10: calling generate_tiles with a negative (defaulted) width or height
always ends in AttributeError before any tile is produced, because the
fallback reads width/height as attributes of the params dict; the call
succeeds only when both width and height are non-negative. -/
theorem C10_generate_tiles_defaults (x_size y_size sample_count samples_per_tile : ℕ)
    (width height : ℤ) (tape : ℕ → ℚ) :
    ((width < 0 ∨ height < 0) →
      generate_tiles_checked x_size y_size sample_count samples_per_tile
        width height tape = .error .attributeError) ∧
    (∀ ts, generate_tiles_checked x_size y_size sample_count samples_per_tile
        width height tape = .ok ts → 0 ≤ width ∧ 0 ≤ height) := by
  constructor
  · intro h
    unfold PTrace.generate_tiles_checked
    rcases h with h | h
    · rw [if_pos h]
    · by_cases hw : width < 0
      · rw [if_pos hw]
      · rw [if_neg hw, if_pos h]
  · intro ts hts
    unfold PTrace.generate_tiles_checked at hts
    by_cases hw : width < 0
    · rw [if_pos hw] at hts
      cases hts
    · by_cases hh : height < 0
      · rw [if_neg hw, if_pos hh] at hts
        cases hts
      · exact ⟨le_of_not_lt hw, le_of_not_lt hh⟩

/-- C10 witness: the default −1 width raises, and a succeeding call has
non-negative dimensions. -/
theorem C10_witness :
    generate_tiles_checked 16 16 40 8 (-1) (-1) (fun _ => 0) =
      .error .attributeError ∧
    (0 ≤ (4 : ℤ) ∧ 0 ≤ (4 : ℤ)) := by
  constructor
  · exact (C10_generate_tiles_defaults 16 16 40 8 (-1) (-1) (fun _ => 0)).1
      (Or.inl (by decide))
  · exact (C10_generate_tiles_defaults 16 16 40 8 4 4 (fun _ => 0)).2
      (generateTiles 16 16 40 8 (4 : ℤ).toNat (4 : ℤ).toNat (fun _ => 0)) rfl

/-- Every element of the range(0, stop, step) model is a multiple of step
below stop. -/
theorem rangeStep_lt {stop step m : ℕ} (hstep : 0 < step)
    (hm : m ∈ rangeStep stop step) : m < stop := by
  unfold PTrace.rangeStep at hm
  rw [List.mem_map] at hm
  obtain ⟨k, hk, rfl⟩ := hm
  rw [List.mem_range] at hk
  have hstop : 1 ≤ stop := by
    by_contra hc
    have h0 : stop = 0 := by omega
    subst h0
    have hz : (0 + step - 1) / step = 0 := Nat.div_eq_of_lt (by omega)
    omega
  have heq : stop + step - 1 = (stop - 1) + step := by omega
  rw [heq, Nat.add_div_right _ hstep] at hk
  have h1 : k ≤ (stop - 1) / step := by omega
  have h2 : k * step ≤ (stop - 1) / step * step :=
    Nat.mul_le_mul_right _ h1
  have h3 : (stop - 1) / step * step ≤ stop - 1 := Nat.div_mul_le_self _ _
  omega

/-- Counting k = c over List.range n. -/
theorem countP_range_eq (n c : ℕ) :
    (List.range n).countP (fun k => decide (k = c)) = if c < n then 1 else 0 := by
  induction n with
  | zero => simp
  | succ n ih =>
    rw [List.range_succ, List.countP_append, ih]
    have : List.countP (fun k => decide (k = c)) [n] = if n = c then 1 else 0 := by
      simp [List.countP_cons]
    rw [this]
    split_ifs <;> omega

/-- Exactly one element of range(0, stop, step) starts the step-cell containing
a value v below stop. -/
theorem countP_rangeStep_cover (stop step v : ℕ) (hstep : 0 < step) (hv : v < stop) :
    (rangeStep stop step).countP
      (fun m => decide (m ≤ v ∧ v < min (m + step) stop)) = 1 := by
  unfold PTrace.rangeStep
  rw [List.countP_map]
  have hcongr : ∀ k ∈ List.range ((stop + step - 1) / step),
      ((fun m => decide (m ≤ v ∧ v < min (m + step) stop)) ∘ (· * step)) k = true ↔
      (fun k => decide (k = v / step)) k = true := by
    intro k _
    simp only [Function.comp_apply, decide_eq_true_eq]
    have hdm := Nat.div_add_mod v step
    have hml := Nat.mod_lt v hstep
    constructor
    · intro ⟨h1, h2⟩
      have h2' : v < k * step + step := lt_of_lt_of_le h2 (min_le_left _ _)
      rcases Nat.lt_trichotomy k (v / step) with hk | hk | hk
      · exfalso
        have hle : (k + 1) * step ≤ v / step * step := Nat.mul_le_mul_right _ (by omega)
        have h4 : v / step * step ≤ v := Nat.div_mul_le_self _ _
        have hexp : (k + 1) * step = k * step + step := by ring
        linarith
      · exact hk
      · exfalso
        have hle : (v / step + 1) * step ≤ k * step := Nat.mul_le_mul_right _ (by omega)
        have hexp : (v / step + 1) * step = step * (v / step) + step := by ring
        linarith
    · intro hk
      subst hk
      have h1 : v / step * step ≤ v := Nat.div_mul_le_self _ _
      have hexp : step * (v / step) = v / step * step := by ring
      refine ⟨h1, lt_min (by linarith) hv⟩
  rw [List.countP_congr hcongr, countP_range_eq]
  have hstop : 1 ≤ stop := by omega
  have heq : stop + step - 1 = (stop - 1) + step := by omega
  rw [if_pos]
  rw [heq, Nat.add_div_right _ hstep]
  exact Nat.lt_succ_of_le (Nat.div_le_div_right (by omega))

/-- Summing a 0/1 indicator over a list counts the matches. -/
theorem sum_map_ite_cover (l : List ℕ) (p : ℕ → Bool) :
    (l.map (fun a => if p a = true then 1 else 0)).sum = l.countP p := by
  induction l with
  | nil => rfl
  | cons a l ih =>
    rw [List.map_cons, List.sum_cons, List.countP_cons, ih]
    exact Nat.add_comm _ _

/-- countP of an index-independent predicate over enumFrom drops the index. -/
theorem countP_enumFrom {α : Type _} (q : α → Bool) (l : List α) (n : ℕ) :
    (l.enumFrom n).countP (fun p => q p.2) = l.countP q := by
  induction l generalizing n with
  | nil => rfl
  | cons a l ih =>
    rw [List.enumFrom_cons, List.countP_cons, List.countP_cons, ih]

/-- Characterisation of the members of the tile-generation triple loop. -/
theorem mem_generateTilesBody {x_size y_size sample_count samples_per_tile width height : ℕ}
    {fn : ℚ → Tile}
    (hfn : fn ∈ generateTilesBody x_size y_size sample_count samples_per_tile width height) :
    ∃ y_pos ∈ rangeStep height y_size, ∃ x_pos ∈ rangeStep width x_size,
      ∃ samples ∈ rangeStep sample_count samples_per_tile,
      fn = fun rand =>
        { x_range := (x_pos, min (x_pos + x_size) width)
          y_range := (y_pos, min (y_pos + y_size) height)
          samples := min (samples + samples_per_tile) sample_count - samples
          sample_ix := samples
          dist_prio := tileDistPrio x_pos (min (x_pos + x_size) width)
            y_pos (min (y_pos + y_size) height) width height
          rand_prio := rand } := by
  unfold PTrace.generateTilesBody at hfn
  simp only [List.mem_flatMap, List.mem_map] at hfn
  obtain ⟨y_pos, hy, x_pos, hx, samples, hsamp, rfl⟩ := hfn
  exact ⟨y_pos, hy, x_pos, hx, samples, hsamp, rfl⟩

/-- C6: for positive tile sizes and samples-per-tile, every triple
(pixel x, pixel y, sample index) inside the image and sample domain is covered
by exactly one of the generated tiles. -/
theorem C6_tiles_partition (x_size y_size sample_count samples_per_tile width height : ℕ)
    (tape : ℕ → ℚ) (hxs : 0 < x_size) (hys : 0 < y_size) (hspt : 0 < samples_per_tile)
    (x y s : ℕ) (hx : x < width) (hy : y < height) (hs : s < sample_count) :
    (generateTiles x_size y_size sample_count samples_per_tile width height tape).countP
      (fun t => tileCovers t x y s) = 1 := by
  unfold PTrace.generateTiles
  rw [(List.mergeSort_perm _ _).countP_eq, List.countP_map]
  have henumform :
      (generateTilesBody x_size y_size sample_count samples_per_tile width height).enum =
      (generateTilesBody x_size y_size sample_count samples_per_tile width height).enumFrom 0 :=
    rfl
  have hcongr : ∀ pr ∈ (generateTilesBody x_size y_size sample_count samples_per_tile
      width height).enum,
      ((fun t => tileCovers t x y s) ∘ fun p : ℕ × (ℚ → Tile) => p.2 (tape p.1)) pr = true ↔
      (fun pr : ℕ × (ℚ → Tile) => tileCovers (pr.2 0) x y s) pr = true := by
    rintro ⟨i, fn⟩ hp
    have hfn : fn ∈ generateTilesBody x_size y_size sample_count samples_per_tile width height := by
      have hmem := List.mem_map_of_mem Prod.snd hp
      rw [List.enum_map_snd] at hmem
      exact hmem
    obtain ⟨y_pos, _, x_pos, _, samples, _, rfl⟩ := mem_generateTilesBody hfn
    exact Iff.rfl
  rw [List.countP_congr hcongr]
  clear hcongr
  rw [henumform]
  have henum : ((generateTilesBody x_size y_size sample_count samples_per_tile
        width height).enumFrom 0).countP (fun pr => tileCovers (pr.2 0) x y s) =
      (generateTilesBody x_size y_size sample_count samples_per_tile
        width height).countP (fun fn => tileCovers (fn 0) x y s) :=
    countP_enumFrom (fun fn : ℚ → Tile => tileCovers (fn 0) x y s) _ 0
  rw [henum]
  clear henum henumform
  unfold PTrace.generateTilesBody
  rw [List.countP_flatMap]
  have houter : ∀ y_pos ∈ rangeStep height y_size,
      (List.countP (fun fn => tileCovers (fn 0) x y s) ∘ fun y_pos =>
        (rangeStep width x_size).flatMap (fun x_pos =>
          (rangeStep sample_count samples_per_tile).map (fun samples =>
            fun rand =>
              { x_range := (x_pos, min (x_pos + x_size) width)
                y_range := (y_pos, min (y_pos + y_size) height)
                samples := min (samples + samples_per_tile) sample_count - samples
                sample_ix := samples
                dist_prio := tileDistPrio x_pos (min (x_pos + x_size) width)
                  y_pos (min (y_pos + y_size) height) width height
                rand_prio := rand }))) y_pos =
      (if decide (y_pos ≤ y ∧ y < min (y_pos + y_size) height) = true then 1 else 0) := by
    intro y_pos _
    simp only [Function.comp_apply]
    rw [List.countP_flatMap]
    by_cases hyc : y_pos ≤ y ∧ y < min (y_pos + y_size) height
    · have hinner : ∀ x_pos ∈ rangeStep width x_size,
          (List.countP (fun fn => tileCovers (fn 0) x y s) ∘ fun x_pos =>
            (rangeStep sample_count samples_per_tile).map (fun samples =>
              fun rand =>
                { x_range := (x_pos, min (x_pos + x_size) width)
                  y_range := (y_pos, min (y_pos + y_size) height)
                  samples := min (samples + samples_per_tile) sample_count - samples
                  sample_ix := samples
                  dist_prio := tileDistPrio x_pos (min (x_pos + x_size) width)
                    y_pos (min (y_pos + y_size) height) width height
                  rand_prio := rand })) x_pos =
          (if decide (x_pos ≤ x ∧ x < min (x_pos + x_size) width) = true
            then 1 else 0) := by
        intro x_pos _
        simp only [Function.comp_apply]
        rw [List.countP_map]
        by_cases hxc : x_pos ≤ x ∧ x < min (x_pos + x_size) width
        · have hsc : ∀ samples ∈ rangeStep sample_count samples_per_tile,
              ((fun fn => tileCovers (fn 0) x y s) ∘ fun samples =>
                (fun rand =>
                  { x_range := (x_pos, min (x_pos + x_size) width)
                    y_range := (y_pos, min (y_pos + y_size) height)
                    samples := min (samples + samples_per_tile) sample_count - samples
                    sample_ix := samples
                    dist_prio := tileDistPrio x_pos (min (x_pos + x_size) width)
                      y_pos (min (y_pos + y_size) height) width height
                    rand_prio := rand } : ℚ → Tile)) samples = true ↔
              (fun m => decide (m ≤ s ∧ s < min (m + samples_per_tile) sample_count))
                samples = true := by
            intro samples hsmem
            have hslt := rangeStep_lt hspt hsmem
            simp only [Function.comp_apply, PTrace.tileCovers, decide_eq_true_eq]
            constructor
            · intro hcv
              exact ⟨hcv.2.2.2.2.1, by omega⟩
            · intro hcv
              exact ⟨hxc.1, hxc.2, hyc.1, hyc.2, hcv.1, by omega⟩
          rw [List.countP_congr hsc,
            countP_rangeStep_cover sample_count samples_per_tile s hspt hs,
            if_pos (by simpa using hxc)]
        · have hsc : ∀ samples ∈ rangeStep sample_count samples_per_tile,
              ((fun fn => tileCovers (fn 0) x y s) ∘ fun samples =>
                (fun rand =>
                  { x_range := (x_pos, min (x_pos + x_size) width)
                    y_range := (y_pos, min (y_pos + y_size) height)
                    samples := min (samples + samples_per_tile) sample_count - samples
                    sample_ix := samples
                    dist_prio := tileDistPrio x_pos (min (x_pos + x_size) width)
                      y_pos (min (y_pos + y_size) height) width height
                    rand_prio := rand } : ℚ → Tile)) samples = true ↔
              (fun _ => false) samples = true := by
            intro samples _
            simp only [Function.comp_apply, PTrace.tileCovers, decide_eq_true_eq]
            constructor
            · intro hcv
              exact absurd ⟨hcv.1, hcv.2.1⟩ hxc
            · intro hcv
              cases hcv
          rw [List.countP_congr hsc, List.countP_false,
            if_neg (by simpa using hxc)]
          rfl
      rw [List.map_congr_left hinner, sum_map_ite_cover,
        countP_rangeStep_cover width x_size x hxs hx,
        if_pos (by simpa using hyc)]
    · rw [if_neg (by simpa using hyc)]
      refine List.sum_eq_zero ?_
      intro a ha
      rw [List.mem_map] at ha
      obtain ⟨x_pos, _, rfl⟩ := ha
      simp only [Function.comp_apply]
      rw [List.countP_map]
      have hsc : ∀ samples ∈ rangeStep sample_count samples_per_tile,
          ((fun fn => tileCovers (fn 0) x y s) ∘ fun samples =>
            (fun rand =>
              { x_range := (x_pos, min (x_pos + x_size) width)
                y_range := (y_pos, min (y_pos + y_size) height)
                samples := min (samples + samples_per_tile) sample_count - samples
                sample_ix := samples
                dist_prio := tileDistPrio x_pos (min (x_pos + x_size) width)
                  y_pos (min (y_pos + y_size) height) width height
                rand_prio := rand } : ℚ → Tile)) samples = true ↔
          (fun _ => false) samples = true := by
        intro samples _
        simp only [Function.comp_apply, PTrace.tileCovers, decide_eq_true_eq]
        constructor
        · intro hcv
          exact absurd ⟨hcv.2.2.1, hcv.2.2.2.1⟩ hyc
        · intro hcv
          cases hcv
      rw [List.countP_congr hsc, List.countP_false]
      rfl
  rw [List.map_congr_left houter, sum_map_ite_cover,
    countP_rangeStep_cover height y_size y hys hy]

/-- C6 witness: a concrete 3×3 image tiled 2×2 with 3 samples in chunks of 2;
the triple (2, 0, 2) is covered exactly once. -/
theorem C6_witness :
    (generateTiles 2 2 3 2 3 3 (fun _ => 0)).countP (fun t => tileCovers t 2 0 2) = 1 :=
  C6_tiles_partition 2 2 3 2 3 3 (fun _ => 0) (by decide) (by decide) (by decide)
    2 0 2 (by decide) (by decide) (by decide)

/-- The Bool sort comparison of generate_tiles agrees with the Prop-valued
lexicographic key order. -/
theorem tileLE_iff (a b : Tile) : tileLE a b = true ↔ tileKeyLE a b := by
  unfold PTrace.tileLE PTrace.tileKeyLE
  simp only [Bool.or_eq_true, Bool.and_eq_true, decide_eq_true_eq, beq_iff_eq]

/-- The sort comparison is total. -/
theorem tileLE_total (a b : Tile) : (tileLE a b || tileLE b a) = true := by
  simp only [Bool.or_eq_true, tileLE_iff]
  unfold PTrace.tileKeyLE
  rcases lt_trichotomy a.sample_ix b.sample_ix with h | h | h
  · exact Or.inl (Or.inl h)
  · rcases lt_trichotomy a.dist_prio b.dist_prio with h2 | h2 | h2
    · exact Or.inl (Or.inr ⟨h, Or.inl h2⟩)
    · rcases le_total a.rand_prio b.rand_prio with h3 | h3
      · exact Or.inl (Or.inr ⟨h, Or.inr ⟨h2, h3⟩⟩)
      · exact Or.inr (Or.inr ⟨h.symm, Or.inr ⟨h2.symm, h3⟩⟩)
    · exact Or.inr (Or.inr ⟨h.symm, Or.inl h2⟩)
  · exact Or.inr (Or.inl h)

/-- The sort comparison is transitive. -/
theorem tileLE_trans (a b c : Tile) (hab : tileLE a b = true) (hbc : tileLE b c = true) :
    tileLE a c = true := by
  rw [tileLE_iff] at hab hbc ⊢
  unfold PTrace.tileKeyLE at hab hbc ⊢
  rcases hab with h1 | ⟨e1, h1⟩
  · rcases hbc with h2 | ⟨e2, _⟩
    · exact Or.inl (h1.trans h2)
    · exact Or.inl (e2 ▸ h1)
  · rcases hbc with h2 | ⟨e2, h2⟩
    · exact Or.inl (e1 ▸ h2)
    · refine Or.inr ⟨e1.trans e2, ?_⟩
      rcases h1 with d1 | ⟨f1, r1⟩
      · rcases h2 with d2 | ⟨f2, _⟩
        · exact Or.inl (d1.trans d2)
        · exact Or.inl (f2 ▸ d1)
      · rcases h2 with d2 | ⟨f2, r2⟩
        · exact Or.inl (f1 ▸ d2)
        · exact Or.inr ⟨f1.trans f2, r1.trans r2⟩

/-- C7 (amended): each tile descriptor emitted by generate_tiles carries the
dist_prio key computed from its own pixel bounds by the source formula
int((int(x_beg + x_end/2) − width/2)² + (int(y_beg + y_end/2) − height/2)²)
— the reference point is int(x_beg + x_end/2), not the tile centre pixel —
and the returned list is sorted ascending by the key triple
(sample_ix, dist_prio, rand_prio). -/
theorem C7_tile_priority_and_order
    (x_size y_size sample_count samples_per_tile width height : ℕ) (tape : ℕ → ℚ) :
    (∀ t ∈ generateTiles x_size y_size sample_count samples_per_tile width height tape,
      t.dist_prio =
        tileDistPrio t.x_range.1 t.x_range.2 t.y_range.1 t.y_range.2 width height) ∧
    (generateTiles x_size y_size sample_count samples_per_tile width height tape).Pairwise
      tileKeyLE := by
  constructor
  · intro t ht
    unfold PTrace.generateTiles at ht
    rw [(List.mergeSort_perm _ _).mem_iff, List.mem_map] at ht
    obtain ⟨⟨i, fn⟩, hp, rfl⟩ := ht
    have hfn : fn ∈ generateTilesBody x_size y_size sample_count samples_per_tile
        width height := by
      have hmem := List.mem_map_of_mem Prod.snd hp
      rw [List.enum_map_snd] at hmem
      exact hmem
    obtain ⟨y_pos, _, x_pos, _, samples, _, rfl⟩ := mem_generateTilesBody hfn
    rfl
  · have hsorted := @List.sorted_mergeSort Tile tileLE tileLE_trans tileLE_total
      ((generateTilesBody x_size y_size sample_count samples_per_tile
        width height).enum.map (fun p => p.2 (tape p.1)))
    unfold PTrace.generateTiles
    exact hsorted.imp (fun hab => (tileLE_iff _ _).mp hab)

/-- C7 witness: instantiation of the amended statement at a concrete call. -/
theorem C7_witness :
    (∀ t ∈ generateTiles 2 1 1 1 4 1 (fun _ => 0),
      t.dist_prio = tileDistPrio t.x_range.1 t.x_range.2 t.y_range.1 t.y_range.2 4 1) ∧
    (generateTiles 2 1 1 1 4 1 (fun _ => 0)).Pairwise tileKeyLE :=
  C7_tile_priority_and_order 2 1 1 1 4 1 (fun _ => 0)

/-- Rat.floor agrees with the floor of the FloorRing instance on ℚ. -/
theorem ratFloor_eq_intFloor (q : ℚ) : Rat.floor q = ⌊q⌋ := by
  rw [Rat.floor_def' q, Rat.floor_def]

/-- The second tile generated for a 4×1 image tiled 2×1 with one sample. -/
theorem generateTiles_4x1_snd_mem :
    (⟨(2, 4), (0, 1), 1, 0, tileDistPrio 2 4 0 1 4 1, 0⟩ : Tile) ∈
      generateTiles 2 1 1 1 4 1 (fun _ => 0) := by
  unfold PTrace.generateTiles
  rw [(List.mergeSort_perm _ tileLE).mem_iff]
  have hlist : ((generateTilesBody 2 1 1 1 4 1).enum.map
      (fun p => p.2 ((fun _ => (0 : ℚ)) p.1))) =
      [⟨(0, 2), (0, 1), 1, 0, tileDistPrio 0 2 0 1 4 1, 0⟩,
       ⟨(2, 4), (0, 1), 1, 0, tileDistPrio 2 4 0 1 4 1, 0⟩] := rfl
  rw [hlist]
  exact List.mem_cons_of_mem _ (List.mem_cons_self _ _)

/-- C7 counterexample: in a 4×1 image tiled into 2×1 tiles, the tile with
x-bounds [2, 4) carries dist_prio 4, while the truncated squared distance from
its centre pixel to the image centre is 1; the claimed key formula fails for
this call. -/
theorem C7_counterexample :
    ¬ ∀ t ∈ generateTiles 2 1 1 1 4 1 (fun _ => 0),
        t.dist_prio = tileCentreDistClaim t.x_range t.y_range 4 1 := by
  intro hall
  have h2 := hall _ generateTiles_4x1_snd_mem
  have h2' : tileDistPrio 2 4 0 1 4 1 = tileCentreDistClaim (2, 4) (0, 1) 4 1 := h2
  have hA : tileDistPrio 2 4 0 1 4 1 = 4 := by
    unfold PTrace.tileDistPrio
    simp only [ratFloor_eq_intFloor]
    norm_num
  have hB : tileCentreDistClaim (2, 4) (0, 1) 4 1 = 1 := by
    unfold PTrace.tileCentreDistClaim
    simp only [ratFloor_eq_intFloor]
    norm_num
  rw [hA, hB] at h2'
  exact absurd h2' (by decide)

/-- Every hit record returned by Sphere.intersect has distance at least the
intersection epsilon. -/
theorem sphere_intersect_dist_ge_eps (s : Sphere) (ray : Ray) (hr : HitRecord)
    (h : s.intersect ray = some hr) : EPS ≤ hr.distance := by
  simp only [PTrace.Sphere.intersect] at h
  have hs := Real.sqrt_nonneg ((s.centre - ray.origin).dot ray.direction ^ 2 -
    (s.centre - ray.origin).sqr_length + s.radius ^ 2)
  split_ifs at h with h1 h2 h3 h4 h5 h6 <;>
    first
    | exact Option.noConfusion h
    | · obtain rfl := Option.some.inj h
        exact le_of_lt h3
    | · obtain rfl := Option.some.inj h
        push_neg at h2
        have hgoal : EPS ≤ (s.centre - ray.origin).dot ray.direction +
            Real.sqrt ((s.centre - ray.origin).dot ray.direction ^ 2 -
              (s.centre - ray.origin).sqr_length + s.radius ^ 2) := by
          by_cases hneg : (s.centre - ray.origin).dot ray.direction -
              Real.sqrt ((s.centre - ray.origin).dot ray.direction ^ 2 -
                (s.centre - ray.origin).sqr_length + s.radius ^ 2) < EPS
          · linarith [h2 hneg]
          · push_neg at hneg
            linarith
        exact hgoal

/-- Every hit record returned by Triangle.intersect has distance at least the
intersection epsilon. -/
theorem triangle_intersect_dist_ge_eps (t : Triangle) (ray : Ray) (hr : HitRecord)
    (h : t.intersect ray = some hr) : EPS ≤ hr.distance := by
  simp only [PTrace.Triangle.intersect] at h
  split_ifs at h with h1 h2 h3 h4 <;>
    first
    | exact Option.noConfusion h
    | · obtain rfl := Option.some.inj h
        push_neg at h3
        exact h3

/-- Every hit record produced by a primitive has distance at least the
intersection epsilon. -/
theorem Primitive.intersect_ex_dist_ge_eps (p : Primitive) (ray : Ray)
    (hr : HitRecord) (mat : Material)
    (h : p.intersect_ex ray = some (hr, mat)) : EPS ≤ hr.distance := by
  unfold PTrace.Primitive.intersect_ex at h
  cases hp : p.intersect ray with
  | none => rw [hp] at h; cases h
  | some hit =>
    rw [hp] at h
    have := Option.some.inj h
    have hhit : hit = hr := congrArg Prod.fst this
    subst hhit
    cases p with
    | sphere s => exact sphere_intersect_dist_ge_eps s ray hit hp
    | triangle t => exact triangle_intersect_dist_ge_eps t ray hit hp

/-- The scan step leaves the accumulator unchanged on a miss. -/
theorem intersectStep_none (ray : Ray) (acc : Option (HitRecord × Material))
    (p : Primitive) (hp : p.intersect_ex ray = none) :
    Scene.intersectStep ray acc p = acc := by
  unfold PTrace.Scene.intersectStep
  rw [hp]

/-- The scan step adopts a hit when no best hit is held yet. -/
theorem intersectStep_some_none (ray : Ray) (p : Primitive)
    (hit : HitRecord × Material) (hp : p.intersect_ex ray = some hit) :
    Scene.intersectStep ray none p = some hit := by
  unfold PTrace.Scene.intersectStep
  rw [hp]

/-- The scan step keeps the strictly closer of the held best hit and a new
hit. -/
theorem intersectStep_some_some (ray : Ray) (p : Primitive)
    (hit best : HitRecord × Material) (hp : p.intersect_ex ray = some hit) :
    Scene.intersectStep ray (some best) p =
      if hit.1.distance < best.1.distance then some hit else some best := by
  unfold PTrace.Scene.intersectStep
  rw [hp]

/-- Characterisation of the linear-scan fold of Scene.intersect_ex over any
accumulator. -/
theorem scene_foldl_spec (ray : Ray) (l : List Primitive)
    (acc : Option (HitRecord × Material)) :
    (l.foldl (Scene.intersectStep ray) acc = none ↔
      (acc = none ∧ ∀ p ∈ l, p.intersect_ex ray = none)) ∧
    (∀ hm, l.foldl (Scene.intersectStep ray) acc = some hm →
      ((some hm = acc ∨ ∃ p ∈ l, p.intersect_ex ray = some hm) ∧
       (∀ p ∈ l, ∀ hm', p.intersect_ex ray = some hm' →
         hm.1.distance ≤ hm'.1.distance) ∧
       (∀ a, acc = some a → hm.1.distance ≤ a.1.distance))) := by
  induction l generalizing acc with
  | nil =>
    refine ⟨by simp, ?_⟩
    intro hm hfold
    simp only [List.foldl_nil] at hfold
    refine ⟨Or.inl hfold.symm, by simp, ?_⟩
    intro a ha
    rw [hfold] at ha
    rw [Option.some.inj ha]
  | cons p l ih =>
    have hstep : ∀ {acc'}, List.foldl (Scene.intersectStep ray) acc' (p :: l) =
        List.foldl (Scene.intersectStep ray) (Scene.intersectStep ray acc' p) l := by
      intro acc'
      rw [List.foldl_cons]
    constructor
    · rw [hstep, (ih (Scene.intersectStep ray acc p)).1]
      cases hp : p.intersect_ex ray with
      | none =>
        rw [intersectStep_none ray acc p hp]
        simp only [List.mem_cons]
        constructor
        · intro ⟨ha, hall⟩
          exact ⟨ha, fun q hq => hq.elim (fun he => he ▸ hp) (hall q)⟩
        · intro ⟨ha, hall⟩
          exact ⟨ha, fun q hq => hall q (Or.inr hq)⟩
      | some hit =>
        cases acc with
        | none =>
          rw [intersectStep_some_none ray p hit hp]
          simp only [List.mem_cons]
          constructor
          · intro ⟨ha, _⟩
            cases ha
          · intro ⟨_, hall⟩
            exact absurd hp (by rw [hall p (Or.inl rfl)]; intro hc; cases hc)
        | some best =>
          rw [intersectStep_some_some ray p hit best hp]
          by_cases hlt : hit.1.distance < best.1.distance
          · rw [if_pos hlt]
            simp only [List.mem_cons]
            constructor
            · intro ⟨ha, _⟩
              cases ha
            · intro ⟨ha, _⟩
              cases ha
          · rw [if_neg hlt]
            simp only [List.mem_cons]
            constructor
            · intro ⟨ha, _⟩
              cases ha
            · intro ⟨ha, _⟩
              cases ha
    · intro hm hfold
      rw [hstep] at hfold
      obtain ⟨hfirst, hmin, hacc⟩ := (ih (Scene.intersectStep ray acc p)).2 hm hfold
      cases hp : p.intersect_ex ray with
      | none =>
        rw [intersectStep_none ray acc p hp] at hfirst hacc
        refine ⟨hfirst.imp id (fun ⟨q, hq, hqq⟩ => ⟨q, List.mem_cons_of_mem _ hq, hqq⟩),
          ?_, hacc⟩
        intro q hq hm' hq'
        rcases List.mem_cons.mp hq with rfl | hq
        · rw [hp] at hq'
          cases hq'
        · exact hmin q hq hm' hq'
      | some hit =>
        cases acc with
        | none =>
          rw [intersectStep_some_none ray p hit hp] at hfirst hacc
          have hmhit : hm.1.distance ≤ hit.1.distance := hacc hit rfl
          constructor
          · rcases hfirst with heq | ⟨q, hq, hqq⟩
            · have := Option.some.inj heq
              subst this
              exact Or.inr ⟨p, List.mem_cons_self _ _, hp⟩
            · exact Or.inr ⟨q, List.mem_cons_of_mem _ hq, hqq⟩
          refine ⟨?_, ?_⟩
          · intro q hq hm' hq'
            rcases List.mem_cons.mp hq with rfl | hq
            · rw [hp] at hq'
              rw [Option.some.inj hq'] at hmhit
              exact hmhit
            · exact hmin q hq hm' hq'
          · intro a ha
            cases ha
        | some best =>
          rw [intersectStep_some_some ray p hit best hp] at hfirst hacc
          by_cases hlt : hit.1.distance < best.1.distance
          · rw [if_pos hlt] at hfirst hacc
            have hmhit : hm.1.distance ≤ hit.1.distance := hacc hit rfl
            constructor
            · rcases hfirst with heq | ⟨q, hq, hqq⟩
              · have := Option.some.inj heq
                subst this
                exact Or.inr ⟨p, List.mem_cons_self _ _, hp⟩
              · exact Or.inr ⟨q, List.mem_cons_of_mem _ hq, hqq⟩
            refine ⟨?_, ?_⟩
            · intro q hq hm' hq'
              rcases List.mem_cons.mp hq with rfl | hq
              · rw [hp] at hq'
                rw [Option.some.inj hq'] at hmhit
                exact hmhit
              · exact hmin q hq hm' hq'
            · intro a ha
              obtain rfl := Option.some.inj ha
              exact le_of_lt (lt_of_le_of_lt hmhit hlt)
          · rw [if_neg hlt] at hfirst hacc
            push_neg at hlt
            have hmbest : hm.1.distance ≤ best.1.distance := hacc best rfl
            constructor
            · rcases hfirst with heq | ⟨q, hq, hqq⟩
              · exact Or.inl heq
              · exact Or.inr ⟨q, List.mem_cons_of_mem _ hq, hqq⟩
            refine ⟨?_, ?_⟩
            · intro q hq hm' hq'
              rcases List.mem_cons.mp hq with rfl | hq
              · rw [hp] at hq'
                rw [← Option.some.inj hq']
                exact le_trans hmbest hlt
              · exact hmin q hq hm' hq'
            · intro a ha
              obtain rfl := Option.some.inj ha
              exact hmbest

/-- C3: Scene.intersect_ex returns None exactly when no primitive reports a
hit, and otherwise returns the hit record and material of a primitive whose
(positive) hit distance is minimal among all primitives the ray intersects. -/
theorem C3_scene_nearest_hit (s : Scene) (ray : Ray) :
    (s.intersect_ex ray = none ↔ ∀ p ∈ s.primitives, p.intersect_ex ray = none) ∧
    (∀ hr mat, s.intersect_ex ray = some (hr, mat) →
      0 < hr.distance ∧
      (∃ p ∈ s.primitives, p.intersect_ex ray = some (hr, mat)) ∧
      (∀ p ∈ s.primitives, ∀ hr' mat', p.intersect_ex ray = some (hr', mat') →
        hr.distance ≤ hr'.distance)) := by
  constructor
  · rw [PTrace.Scene.intersect_ex, (scene_foldl_spec ray s.primitives none).1]
    simp
  · intro hr mat hsome
    rw [PTrace.Scene.intersect_ex] at hsome
    obtain ⟨hfirst, hmin, _⟩ := (scene_foldl_spec ray s.primitives none).2 _ hsome
    have hex : ∃ p ∈ s.primitives, p.intersect_ex ray = some (hr, mat) := by
      rcases hfirst with hc | hex
      · cases hc
      · exact hex
    obtain ⟨p, hp, hpp⟩ := hex
    have hpos : EPS ≤ hr.distance := Primitive.intersect_ex_dist_ge_eps p ray hr mat hpp
    have heps : (0 : ℝ) < EPS := by norm_num [PTrace.EPS]
    exact ⟨lt_of_lt_of_le heps hpos, ⟨p, hp, hpp⟩,
      fun q hq hr' mat' hq' => hmin q hq (hr', mat') hq'⟩

/-- The dot product written out in components. -/
theorem Vec3.dot_def (a b : Vec3) :
    a.dot b = a.x * b.x + a.y * b.y + a.z * b.z := rfl

/-- A ray starting on the line through the sphere centre, more than epsilon
outside the sphere and aimed at the centre, hits the near surface at distance
L − r with the normal opposite the direction and is_inside false. -/
theorem sphere_hit_outside (c d : Vec3) (L r : ℝ) (mat : Material)
    (hd : d.dot d = 1) (hr : 0 < r) (hm : EPS < L - r) :
    Sphere.intersect ⟨c, r, mat⟩ ⟨c - d * L, d⟩ =
      some ⟨L - r, (c - d * L) + d * (L - r), false, -d⟩ := by
  have heps : (0 : ℝ) < EPS := by norm_num [PTrace.EPS]
  have hdd : d.x * d.x + d.y * d.y + d.z * d.z = 1 := hd
  simp only [PTrace.Sphere.intersect]
  have hb : (c - (c - d * L)).dot d = L := by
    rw [Vec3.dot_def]
    simp only [Vec3.sub_x, Vec3.sub_y, Vec3.sub_z, Vec3.add_x, Vec3.add_y, Vec3.add_z, Vec3.smul_x, Vec3.smul_y, Vec3.smul_z]
    linear_combination L * hdd
  have hsl : (c - (c - d * L)).sqr_length = L ^ 2 := by
    unfold PTrace.Vec3.sqr_length
    rw [Vec3.dot_def]
    simp only [Vec3.sub_x, Vec3.sub_y, Vec3.sub_z, Vec3.add_x, Vec3.add_y, Vec3.add_z, Vec3.smul_x, Vec3.smul_y, Vec3.smul_z]
    linear_combination (L ^ 2) * hdd
  rw [hb, hsl]
  have hdiscr : L ^ 2 - L ^ 2 + r ^ 2 = r ^ 2 := by ring
  rw [hdiscr, Real.sqrt_sq hr.le]
  rw [if_neg (by push_neg; exact le_of_eq_of_le (by norm_num) (sq_nonneg r))]
  rw [if_neg (by push_neg; intro ha; linarith)]
  rw [if_pos (show L - r > EPS from hm)]
  simp only [PTrace.Ray.point_at]
  have hvec : (c - d * L + d * (L - r)) - c = -(d * r) := by
    ext <;> simp <;> ring
  simp only [hvec]
  have hnorm : (-(d * r)).normalised = -d := by
    unfold PTrace.Vec3.normalised PTrace.Vec3.length PTrace.Vec3.sqr_length
    have hdotr : (-(d * r)).dot (-(d * r)) = r ^ 2 := by
      rw [Vec3.dot_def]
      simp only [Vec3.neg_x, Vec3.neg_y, Vec3.neg_z, Vec3.smul_x, Vec3.smul_y, Vec3.smul_z]
      linear_combination (r ^ 2) * hdd
    rw [hdotr, Real.sqrt_sq hr.le]
    ext <;> simp <;> field_simp
  simp only [hnorm]
  have hdotn : (-d).dot d = -1 := by
    rw [Vec3.dot_def]
    simp only [Vec3.neg_x, Vec3.neg_y, Vec3.neg_z]
    linear_combination -hdd
  simp only [hdotn]
  rw [if_neg (show ¬((-1 : ℝ) > 0.0) by norm_num)]
  have hdec : decide ((-1 : ℝ) > 0.0) = false := decide_eq_false (by norm_num)
  simp only [hdec]

/-- A ray starting at least epsilon inside the sphere and aimed directly away
from the centre hits the far surface at distance r − L, with is_inside true
and the returned normal flipped to oppose the ray direction. -/
theorem sphere_hit_inside (c d : Vec3) (L r : ℝ) (mat : Material)
    (hd : d.dot d = 1) (hL : 0 ≤ L) (hm : EPS ≤ r - L) :
    Sphere.intersect ⟨c, r, mat⟩ ⟨c + d * L, d⟩ =
      some ⟨r - L, (c + d * L) + d * (r - L), true, -d⟩ := by
  have heps : (0 : ℝ) < EPS := by norm_num [PTrace.EPS]
  have hr : 0 < r := by linarith
  have hdd : d.x * d.x + d.y * d.y + d.z * d.z = 1 := hd
  simp only [PTrace.Sphere.intersect]
  have hb : (c - (c + d * L)).dot d = -L := by
    rw [Vec3.dot_def]
    simp only [Vec3.sub_x, Vec3.sub_y, Vec3.sub_z, Vec3.add_x, Vec3.add_y, Vec3.add_z, Vec3.smul_x, Vec3.smul_y, Vec3.smul_z]
    linear_combination (-L) * hdd
  have hsl : (c - (c + d * L)).sqr_length = L ^ 2 := by
    unfold PTrace.Vec3.sqr_length
    rw [Vec3.dot_def]
    simp only [Vec3.sub_x, Vec3.sub_y, Vec3.sub_z, Vec3.add_x, Vec3.add_y, Vec3.add_z, Vec3.smul_x, Vec3.smul_y, Vec3.smul_z]
    linear_combination (L ^ 2) * hdd
  rw [hb, hsl]
  have hdiscr : (-L) ^ 2 - L ^ 2 + r ^ 2 = r ^ 2 := by ring
  rw [hdiscr, Real.sqrt_sq hr.le]
  rw [if_neg (by push_neg; exact le_of_eq_of_le (by norm_num) (sq_nonneg r))]
  rw [if_neg (by push_neg; intro _; linarith)]
  rw [if_neg (show ¬(-L - r > EPS) by push_neg; linarith)]
  simp only [PTrace.Ray.point_at]
  have hvec : (c + d * L + d * (-L + r)) - c = d * r := by
    ext <;> simp <;> ring
  simp only [hvec]
  have hnorm : (d * r).normalised = d := by
    unfold PTrace.Vec3.normalised PTrace.Vec3.length PTrace.Vec3.sqr_length
    have hdotr : (d * r).dot (d * r) = r ^ 2 := by
      rw [Vec3.dot_def]
      simp only [Vec3.smul_x, Vec3.smul_y, Vec3.smul_z]
      linear_combination (r ^ 2) * hdd
    rw [hdotr, Real.sqrt_sq hr.le]
    ext <;> simp <;> field_simp
  simp only [hnorm, hd]
  rw [if_pos (show (1 : ℝ) > 0.0 by norm_num)]
  have hdec : decide ((1 : ℝ) > 0.0) = true := decide_eq_true (by norm_num)
  simp only [hdec]
  refine congrArg some (HitRecord.ext ?_ ?_ rfl rfl)
  · ring
  · ext <;>
      simp only [Vec3.add_x, Vec3.add_y, Vec3.add_z, Vec3.smul_x, Vec3.smul_y,
        Vec3.smul_z] <;>
      ring

/-- A ray whose line passes farther than the radius from the centre produces
no hit. -/
theorem sphere_miss (c d o : Vec3) (r : ℝ) (mat : Material)
    (hmiss : (c - o).sqr_length - ((c - o).dot d) ^ 2 > r ^ 2) :
    Sphere.intersect ⟨c, r, mat⟩ ⟨o, d⟩ = none := by
  simp only [PTrace.Sphere.intersect]
  rw [if_pos]
  linarith

/-- C4 (amended): for a unit direction d, a ray from distance L on the line
through the centre aimed at the centre, with clearance L − r > 1e-7 and r > 0,
hits at distance L − r with normal −d and is_inside false; a ray from L inside
the sphere (r − L ≥ 1e-7) aimed away from the centre hits at r − L with
is_inside true and normal −d — opposite the ray direction, the source flips
the outward normal for inside hits; a ray whose line misses the sphere
returns no hit. -/
theorem C4_sphere_axial_rays (c d : Vec3) (L r : ℝ) (mat : Material)
    (hd : d.dot d = 1) :
    (0 < r → EPS < L - r →
      Sphere.intersect ⟨c, r, mat⟩ ⟨c - d * L, d⟩ =
        some ⟨L - r, (c - d * L) + d * (L - r), false, -d⟩) ∧
    (0 ≤ L → EPS ≤ r - L →
      Sphere.intersect ⟨c, r, mat⟩ ⟨c + d * L, d⟩ =
        some ⟨r - L, (c + d * L) + d * (r - L), true, -d⟩) ∧
    (∀ o : Vec3, (c - o).sqr_length - ((c - o).dot d) ^ 2 > r ^ 2 →
      Sphere.intersect ⟨c, r, mat⟩ ⟨o, d⟩ = none) :=
  ⟨fun hr hm => sphere_hit_outside c d L r mat hd hr hm,
   fun hL hm => sphere_hit_inside c d L r mat hd hL hm,
   fun o hmiss => sphere_miss c d o r mat hmiss⟩

/-- C4 witness: the three amended cases at concrete spheres and rays. -/
theorem C4_witness :
    Sphere.intersect ⟨⟨0, 0, 30⟩, 10, mat1⟩
        ⟨(⟨0, 0, 30⟩ : Vec3) - (⟨0, 0, 1⟩ : Vec3) * (30 : ℝ), ⟨0, 0, 1⟩⟩ =
      some (⟨(30 : ℝ) - 10,
        ((⟨0, 0, 30⟩ : Vec3) - (⟨0, 0, 1⟩ : Vec3) * (30 : ℝ)) +
          (⟨0, 0, 1⟩ : Vec3) * ((30 : ℝ) - 10),
        false, -(⟨0, 0, 1⟩ : Vec3)⟩ : HitRecord) ∧
    Sphere.intersect ⟨Vec3.zero, 10, mat1⟩
        ⟨Vec3.zero + (⟨0, 0, 1⟩ : Vec3) * (5 : ℝ), ⟨0, 0, 1⟩⟩ =
      some (⟨(10 : ℝ) - 5,
        (Vec3.zero + (⟨0, 0, 1⟩ : Vec3) * (5 : ℝ)) + (⟨0, 0, 1⟩ : Vec3) * ((10 : ℝ) - 5),
        true, -(⟨0, 0, 1⟩ : Vec3)⟩ : HitRecord) ∧
    Sphere.intersect ⟨⟨10, 20, 30⟩, 15, mat1⟩ ⟨Vec3.zero, ⟨0, 1, 0⟩⟩ = none := by
  refine ⟨(C4_sphere_axial_rays ⟨0, 0, 30⟩ ⟨0, 0, 1⟩ 30 10 mat1
      (by norm_num [Vec3.dot_def])).1 (by norm_num) (by norm_num [PTrace.EPS]),
    (C4_sphere_axial_rays Vec3.zero ⟨0, 0, 1⟩ 5 10 mat1
      (by norm_num [Vec3.dot_def])).2.1 (by norm_num) (by norm_num [PTrace.EPS]),
    (C4_sphere_axial_rays ⟨10, 20, 30⟩ ⟨0, 1, 0⟩ 0 15 mat1
      (by norm_num [Vec3.dot_def])).2.2 Vec3.zero ?_⟩
  norm_num [PTrace.Vec3.sqr_length, Vec3.dot_def, PTrace.Vec3.zero]

/-- C4 counterexample: a ray cast from 5 units inside a radius-10 sphere
directly away from the centre hits at distance 5 with is_inside true, but the
returned normal is (0, 0, −1), opposite the ray direction (0, 0, 1) — not
along it as the claim states. -/
theorem C4_counterexample :
    Sphere.intersect ⟨Vec3.zero, 10, mat1⟩ ⟨⟨0, 0, 5⟩, ⟨0, 0, 1⟩⟩ =
      some ⟨5, ⟨0, 0, 10⟩, true, ⟨0, 0, -1⟩⟩ ∧
    (⟨0, 0, -1⟩ : Vec3) ≠ (⟨0, 0, 1⟩ : Vec3) := by
  constructor
  · have h := sphere_hit_inside Vec3.zero ⟨0, 0, 1⟩ 5 10 mat1
      (by norm_num [Vec3.dot_def]) (by norm_num) (by norm_num [PTrace.EPS])
    rw [show (Vec3.zero + (⟨0, 0, 1⟩ : Vec3) * (5 : ℝ)) = (⟨0, 0, 5⟩ : Vec3) from by
      ext <;> simp [PTrace.Vec3.zero]] at h
    rw [show ((10 : ℝ) - 5) = 5 from by norm_num] at h
    rw [show ((⟨0, 0, 5⟩ : Vec3) + (⟨0, 0, 1⟩ : Vec3) * (5 : ℝ)) = (⟨0, 0, 10⟩ : Vec3) from by
      ext <;> simp <;> norm_num] at h
    rw [show (-(⟨0, 0, 1⟩ : Vec3)) = (⟨0, 0, -1⟩ : Vec3) from by ext <;> simp] at h
    exact h
  · intro h
    exact absurd (congrArg Vec3.z h) (by norm_num)

/-- Evaluation of the unit-test sphere intersection: ray0 hits sphere1 at
distance 20 with normal (0, 0, −1). -/
theorem sphere1_intersect : sphere1.intersect ray0 = some hr1 := by
  have h := sphere_hit_outside ⟨0, 0, 30⟩ ⟨0, 0, 1⟩ 30 10 mat1
    (by norm_num [Vec3.dot_def]) (by norm_num) (by norm_num [PTrace.EPS])
  rw [show ((⟨0, 0, 30⟩ : Vec3) - (⟨0, 0, 1⟩ : Vec3) * (30 : ℝ)) = Vec3.zero from by
    ext <;> simp [PTrace.Vec3.zero]] at h
  rw [show ((30 : ℝ) - 10) = 20 from by norm_num] at h
  rw [show (Vec3.zero + (⟨0, 0, 1⟩ : Vec3) * (20 : ℝ)) = (⟨0, 0, 20⟩ : Vec3) from by
    ext <;> simp [PTrace.Vec3.zero]] at h
  rw [show (-(⟨0, 0, 1⟩ : Vec3)) = (⟨0, 0, -1⟩ : Vec3) from by ext <;> simp] at h
  exact h

/-- Evaluation of the one-sphere scene scan on ray0. -/
theorem scene1_intersect_ex : scene1.intersect_ex ray0 = some (hr1, mat1) := by
  have hp : (Primitive.sphere sphere1).intersect_ex ray0 = some (hr1, mat1) := by
    have hpi : (Primitive.sphere sphere1).intersect ray0 = some hr1 := sphere1_intersect
    unfold PTrace.Primitive.intersect_ex
    rw [hpi]
    rfl
  show List.foldl (Scene.intersectStep ray0) none [.sphere sphere1] = some (hr1, mat1)
  rw [List.foldl_cons, intersectStep_some_none ray0 _ (hr1, mat1) hp, List.foldl_nil]

/-- C3 witness: the nearest-hit characterisation instantiated on the
one-sphere scene and the axial ray. -/
theorem C3_witness :
    scene1.intersect_ex ray0 = some (hr1, mat1) ∧
    0 < hr1.distance ∧
    (∃ p ∈ scene1.primitives, p.intersect_ex ray0 = some (hr1, mat1)) := by
  have h := (C3_scene_nearest_hit scene1 ray0).2 hr1 mat1 scene1_intersect_ex
  exact ⟨scene1_intersect_ex, h.1, h.2.1⟩

/-- Negating the left argument negates the dot product. -/
theorem Vec3.neg_dot (v w : Vec3) : (-v).dot w = -(v.dot w) := by
  rw [Vec3.dot_def, Vec3.dot_def]
  simp only [Vec3.neg_x, Vec3.neg_y, Vec3.neg_z]
  ring

/-- Dividing the left argument divides the dot product. -/
theorem Vec3.div_dot (v w : Vec3) (s : ℝ) : (v / s).dot w = v.dot w / s := by
  rw [Vec3.dot_def, Vec3.dot_def]
  simp only [Vec3.div_x, Vec3.div_y, Vec3.div_z]
  ring

/-- The dot product is commutative. -/
theorem Vec3.dot_comm (v w : Vec3) : v.dot w = w.dot v := by
  rw [Vec3.dot_def, Vec3.dot_def]
  ring

/-- A flipped normal opposes the ray when the unflipped one agreed with it. -/
theorem flip_dot_le (v w : Vec3) (h : v.dot w > 0.0) : (-v).dot w ≤ 0 := by
  rw [Vec3.neg_dot]
  have h0 : (0.0 : ℝ) = 0 := by norm_num
  rw [h0] at h
  linarith

/-- An unflipped normal already opposes the ray. -/
theorem noflip_dot_le (v w : Vec3) (h : ¬(v.dot w > 0.0)) : v.dot w ≤ 0 := by
  push_neg at h
  have h0 : (0.0 : ℝ) = 0 := by norm_num
  rw [h0] at h
  exact h

/-- Every sphere hit has its returned normal facing the incoming ray. -/
theorem Sphere.intersect_normal_le (s : Sphere) (ray : Ray) (hr : HitRecord)
    (h : s.intersect ray = some hr) : hr.normal.dot ray.direction ≤ 0 := by
  simp only [PTrace.Sphere.intersect] at h
  split_ifs at h with h1 h2 h3 h4 h5 <;>
    first
    | exact Option.noConfusion h
    | · obtain rfl := Option.some.inj h
        exact flip_dot_le _ _ h4
    | · obtain rfl := Option.some.inj h
        exact noflip_dot_le _ _ h4
    | · obtain rfl := Option.some.inj h
        exact flip_dot_le _ _ h5
    | · obtain rfl := Option.some.inj h
        exact noflip_dot_le _ _ h5

/-- The normalisation of a vector keeps the sign of its dot products: the dot
of the normalised vector is the original dot divided by a nonnegative
length. -/
theorem normalised_dot_nonpos (v w : Vec3) (h : v.dot w ≤ 0) :
    v.normalised.dot w ≤ 0 := by
  unfold PTrace.Vec3.normalised PTrace.Vec3.length
  rw [Vec3.div_dot]
  exact div_nonpos_of_nonpos_of_nonneg h (Real.sqrt_nonneg _)

/-- The normalisation of a vector keeps nonnegative dot products
nonnegative. -/
theorem normalised_dot_nonneg (v w : Vec3) (h : 0 ≤ v.dot w) :
    0 ≤ v.normalised.dot w := by
  unfold PTrace.Vec3.normalised PTrace.Vec3.length
  rw [Vec3.div_dot]
  exact div_nonneg h (Real.sqrt_nonneg _)

/-- A triangle whose vertex normals are all the face normal (constructor
default) returns hit normals facing the incoming ray. -/
theorem Triangle.flat_intersect_normal_le (t : Triangle)
    (hflat : ∀ i, t.normals i = t.face_normal) (ray : Ray) (hr : HitRecord)
    (h : t.intersect ray = some hr) : hr.normal.dot ray.direction ≤ 0 := by
  have heps : (0 : ℝ) < EPS := by norm_num [PTrace.EPS]
  have hinterp2 : ∀ (a : Vec3) (u w : ℝ), (a - a) * u + (a - a) * w + a = a := by
    intro a u w
    ext <;> simp <;> ring
  have htriple : t.face_u.dot (ray.direction.cross t.face_v) =
      -(ray.direction.dot (t.face_u.cross t.face_v)) := by
    unfold PTrace.Triangle.face_u PTrace.Triangle.face_v
    rw [Vec3.dot_def, Vec3.dot_def]
    simp only [PTrace.Vec3.cross, Vec3.sub_x, Vec3.sub_y, Vec3.sub_z]
    ring
  have hface : t.face_normal = (t.face_u.cross t.face_v).normalised := rfl
  simp only [PTrace.Triangle.intersect] at h
  simp only [hflat, hface, hinterp2] at h
  split_ifs at h with h1 h2 h3 h4 <;>
    first
    | exact Option.noConfusion h
    | · obtain rfl := Option.some.inj h
        push_neg at h1
        have hXneg : t.face_u.dot (ray.direction.cross t.face_v) ≤ -EPS := by
          rcases abs_cases (t.face_u.dot (ray.direction.cross t.face_v)) with
            ⟨heq, _⟩ | ⟨heq, _⟩
          · rw [heq] at h1
            linarith
          · rw [heq] at h1
            linarith
        have hdir : 0 ≤ ray.direction.dot (t.face_u.cross t.face_v) := by linarith
        have hkey : (-((t.face_u.cross t.face_v).normalised.normalised)).dot
            ray.direction ≤ 0 := by
          rw [Vec3.neg_dot]
          have := normalised_dot_nonneg ((t.face_u.cross t.face_v).normalised)
            ray.direction (normalised_dot_nonneg _ _ (by rw [Vec3.dot_comm]; linarith))
          linarith
        exact hkey
    | · obtain rfl := Option.some.inj h
        push_neg at h4
        have hdir : ray.direction.dot (t.face_u.cross t.face_v) ≤ 0 := by linarith
        have hkey : (((t.face_u.cross t.face_v).normalised.normalised)).dot
            ray.direction ≤ 0 :=
          normalised_dot_nonpos _ _
            (normalised_dot_nonpos _ _ (by rw [Vec3.dot_comm]; linarith))
        exact hkey

/-- Evaluation: the custom-normal triangle is hit at distance 3 and its
returned normal (0, 0, 1) points along the ray direction. -/
theorem triBad_intersect :
    triBad.intersect ray0 = some ⟨3, ⟨0, 0, 3⟩, false, ⟨0, 0, 1⟩⟩ := by
  have hfu : triBad.face_u = ⟨0, 1, 0⟩ := by
    show ((⟨0, 1, 3⟩ : Vec3) - ⟨0, 0, 3⟩) = ⟨0, 1, 0⟩
    ext <;> simp
  have hfv : triBad.face_v = ⟨1, 1, 0⟩ := by
    show ((⟨1, 1, 3⟩ : Vec3) - ⟨0, 0, 3⟩) = ⟨1, 1, 0⟩
    ext <;> simp
  have hn : ∀ i : Fin 3, triBad.normals i = ⟨0, 0, 1⟩ := fun _ => rfl
  have hv0 : triBad.vertices 0 = ⟨0, 0, 3⟩ := rfl
  norm_num [PTrace.Triangle.intersect, hfu, hfv, hn, hv0, PTrace.ray0,
    PTrace.Vec3.zero, Vec3.dot_def, PTrace.Vec3.cross, PTrace.Ray.point_at,
    PTrace.Vec3.normalised, PTrace.Vec3.length, PTrace.Vec3.sqr_length,
    PTrace.EPS, Real.sqrt_one, Option.some.injEq, HitRecord.mk.injEq,
    Vec3.mk.injEq, decide_eq_false_iff_not]
  constructor <;> (ext <;> simp <;> norm_num)

/-- The face coordinate vectors and face normal of the z = EPS triangle. -/
theorem triEps_face_normal : triEps.face_normal = ⟨0, 0, -1⟩ := by
  have hfu : triEps.face_u = ⟨0, 1, 0⟩ := by
    show ((⟨0, 1, EPS⟩ : Vec3) - ⟨0, 0, EPS⟩) = ⟨0, 1, 0⟩
    ext <;> simp
  have hfv : triEps.face_v = ⟨1, 1, 0⟩ := by
    show ((⟨1, 1, EPS⟩ : Vec3) - ⟨0, 0, EPS⟩) = ⟨1, 1, 0⟩
    ext <;> simp
  unfold PTrace.Triangle.face_normal
  rw [hfu, hfv]
  have hc : (⟨0, 1, 0⟩ : Vec3).cross ⟨1, 1, 0⟩ = ⟨0, 0, -1⟩ := by
    ext <;> simp [PTrace.Vec3.cross]
  rw [hc]
  unfold PTrace.Vec3.normalised PTrace.Vec3.length PTrace.Vec3.sqr_length
  rw [show (⟨0, 0, -1⟩ : Vec3).dot ⟨0, 0, -1⟩ = 1 by norm_num [Vec3.dot_def],
    Real.sqrt_one]
  ext <;> simp

/-- The z = EPS triangle has the constructor-default (face) normals. -/
theorem triEps_flat : ∀ i, triEps.normals i = triEps.face_normal := by
  intro i
  rw [triEps_face_normal]
  rfl

/-- Evaluation: the z = EPS triangle is hit at distance exactly EPS (not
strictly above it). -/
theorem triEps_intersect :
    triEps.intersect ray0 = some ⟨EPS, ⟨0, 0, EPS⟩, false, ⟨0, 0, -1⟩⟩ := by
  have hfu : triEps.face_u = ⟨0, 1, 0⟩ := by
    show ((⟨0, 1, EPS⟩ : Vec3) - ⟨0, 0, EPS⟩) = ⟨0, 1, 0⟩
    ext <;> simp
  have hfv : triEps.face_v = ⟨1, 1, 0⟩ := by
    show ((⟨1, 1, EPS⟩ : Vec3) - ⟨0, 0, EPS⟩) = ⟨1, 1, 0⟩
    ext <;> simp
  have hn : ∀ i : Fin 3, triEps.normals i = ⟨0, 0, -1⟩ := fun _ => rfl
  have hv0 : triEps.vertices 0 = ⟨0, 0, EPS⟩ := rfl
  norm_num [PTrace.Triangle.intersect, hfu, hfv, hn, hv0, PTrace.ray0,
    PTrace.Vec3.zero, Vec3.dot_def, PTrace.Vec3.cross, PTrace.Ray.point_at,
    PTrace.Vec3.normalised, PTrace.Vec3.length, PTrace.Vec3.sqr_length,
    PTrace.EPS, Real.sqrt_one, Option.some.injEq, HitRecord.mk.injEq,
    Vec3.mk.injEq, decide_eq_false_iff_not]
  constructor <;> (ext <;> simp <;> norm_num)

/-- C8 (amended): every hit record of Sphere.intersect or Triangle.intersect
has distance at least (possibly equal to) the intersection epsilon 1e-7;
sphere hit normals always face the incoming ray; triangle hit normals face
the incoming ray when the vertex normals are the face normal (the
constructor default), but not in general for custom vertex normals. -/
theorem C8_hit_record_invariants :
    (∀ (s : Sphere) (ray : Ray) (hr : HitRecord), s.intersect ray = some hr →
      EPS ≤ hr.distance ∧ hr.normal.dot ray.direction ≤ 0) ∧
    (∀ (t : Triangle) (ray : Ray) (hr : HitRecord), t.intersect ray = some hr →
      EPS ≤ hr.distance) ∧
    (∀ t : Triangle, (∀ i, t.normals i = t.face_normal) →
      ∀ (ray : Ray) (hr : HitRecord), t.intersect ray = some hr →
      hr.normal.dot ray.direction ≤ 0) :=
  ⟨fun s ray hr h => ⟨sphere_intersect_dist_ge_eps s ray hr h,
    Sphere.intersect_normal_le s ray hr h⟩,
   fun t ray hr h => triangle_intersect_dist_ge_eps t ray hr h,
   fun t hflat ray hr h => Triangle.flat_intersect_normal_le t hflat ray hr h⟩

/-- C8 witness: the invariants instantiated on the test sphere hit and the
flat z = EPS triangle hit. -/
theorem C8_witness :
    (EPS ≤ hr1.distance ∧ hr1.normal.dot ray0.direction ≤ 0) ∧
    EPS ≤ (⟨EPS, ⟨0, 0, EPS⟩, false, ⟨0, 0, -1⟩⟩ : HitRecord).distance ∧
    (⟨EPS, ⟨0, 0, EPS⟩, false, ⟨0, 0, -1⟩⟩ : HitRecord).normal.dot
      ray0.direction ≤ 0 :=
  ⟨C8_hit_record_invariants.1 sphere1 ray0 hr1 sphere1_intersect,
   C8_hit_record_invariants.2.1 triEps ray0 _ triEps_intersect,
   C8_hit_record_invariants.2.2 triEps triEps_flat ray0 _ triEps_intersect⟩

/-- C8 counterexample: the custom-normal triangle returns a hit whose normal
has positive dot with the ray direction, and the z = EPS triangle returns a
hit at distance exactly 1e-7, not strictly above it. -/
theorem C8_counterexample :
    (triBad.intersect ray0 = some ⟨3, ⟨0, 0, 3⟩, false, ⟨0, 0, 1⟩⟩ ∧
      0 < (⟨0, 0, 1⟩ : Vec3).dot ray0.direction) ∧
    (triEps.intersect ray0 = some ⟨EPS, ⟨0, 0, EPS⟩, false, ⟨0, 0, -1⟩⟩ ∧
      ¬(EPS < (⟨EPS, ⟨0, 0, EPS⟩, false, ⟨0, 0, -1⟩⟩ : HitRecord).distance)) := by
  refine ⟨⟨triBad_intersect, ?_⟩, ⟨triEps_intersect, ?_⟩⟩
  · norm_num [Vec3.dot_def, PTrace.ray0]
  · norm_num

/-- At the depth cap the estimator returns zero radiance and consumes no
draws. -/
theorem R1_radiance_depth_cap (tape : ℕ → ℝ) (ray : Ray) (p : ℕ) :
    R1.radiance tape ray 1 p = (.ok Vec3.zero, p) := by
  rw [PTrace.Renderer.radiance]
  rw [dif_pos (show 1 ≥ R1.params.max_depth from le_refl 1)]

/-- The Fresnel reflectance of the test hit between equal unit indices is
zero. -/
theorem hr1_reflectance_zero :
    hr1.normal.reflectance ray0.direction 1.0 1.0 = 0 := by
  unfold PTrace.Vec3.reflectance
  rw [show hr1.normal.dot ray0.direction = -1 by
    norm_num [Vec3.dot_def, PTrace.hr1, PTrace.ray0]]
  norm_num

/-- Sampling the test material at the test hit with probability draw 1/2
takes the diffuse branch (the Fresnel probability is 0) and, at the depth
cap, contributes the diffuse colour times zero radiance without consuming
draws. -/
theorem mat1_sample_eval (tape : ℕ → ℝ) (u v : ℝ) (p : ℕ) :
    Material.sample mat1 hr1 ray0
      (fun r q => R1.radiance tape r 1 q) u v (1 / 2 : ℝ) p =
      (.ok (mat1.material_data.diffuse * Vec3.zero), p) := by
  unfold PTrace.Material.sample
  have hmatte : mat1 = .matte ⟨Vec3.zero, ⟨0.2, 0.2, 0.2⟩, 1.0, -1.0, 0.0⟩ := rfl
  have hinside : hr1.is_inside = false := rfl
  rw [hmatte]
  simp only [hinside, Bool.false_eq_true, if_false, PTrace.Material.material_data]
  rw [if_neg (by rw [hr1_reflectance_zero]; norm_num)]
  rw [R1_radiance_depth_cap]
  rfl

/-- C1 (code bug): radiance on the one-sphere scene with preview disabled and
depth 0 below max_depth ends in AttributeError after consuming the draws of
the two zip-loop iterations (2×3 configured first-bounce samples yield only
min(2,3) = 2 loop passes), because the closing call is written
material.totalEmission while the class defines total_emission. -/
theorem C1_radiance_attribute_error :
    R1.radiance (fun _ => (1 / 2 : ℝ)) ray0 0 0 =
      (.error PyErr.attributeError, 6) := by
  have hmem : ("totalEmission" ∈ Material.methodNames) = False := by
    simp [PTrace.Material.methodNames]
  have hzip : (List.range 2).zip (List.range 3) = [(0, 0), (1, 1)] := rfl
  rw [PTrace.Renderer.radiance]
  rw [dif_neg (show ¬(0 ≥ R1.params.max_depth) from by decide)]
  simp only [show R1.scene = scene1 from rfl, scene1_intersect_ex,
    show R1.params.preview = false from rfl,
    show R1.params.first_bounce_u_samples = 2 from rfl,
    show R1.params.first_bounce_v_samples = 3 from rfl,
    Bool.false_eq_true, if_false, eq_self_iff_true, if_true, hzip,
    List.foldl_cons, List.foldl_nil, mat1_sample_eval, hmem]

/-- Rays in the empty scene return the environment colour and consume no
draws. -/
theorem R2_radiance_env (tape : ℕ → ℝ) (ray : Ray) (p : ℕ) :
    R2.radiance tape ray 0 p = (.ok (⟨0.5, 0.6, 0.7⟩ : Vec3), p) := by
  rw [PTrace.Renderer.radiance]
  rw [dif_neg (show ¬(0 ≥ R2.params.max_depth) from by decide)]
  have hint : R2.scene.intersect_ex ray = none := rfl
  simp only [hint]
  rfl

/-- Evaluation of render on the empty 2×2 scene: one pass over
zip(range(2), range(2)) visits only the diagonal pixels (0,0) and (1,1). -/
theorem R2_render_eval (tape : ℕ → ℝ) :
    (R2.render tape).1 =
      .ok (((AccumulableImage.init 2 2).add_samples 0 0 ⟨0.5, 0.6, 0.7⟩ 1).add_samples
        1 1 ⟨0.5, 0.6, 0.7⟩ 1) := by
  unfold PTrace.Renderer.render
  have hrange1 : List.range 1 = [0] := rfl
  have hzip : (List.range 2).zip (List.range 2) = [(0, 0), (1, 1)] := rfl
  simp only [show R2.params.height = 2 from rfl, show R2.params.width = 2 from rfl,
    show R2.params.samples_per_pixel = 1 from rfl, hrange1, hzip,
    List.foldl_cons, List.foldl_nil, R2_radiance_env]

/-- C2 (code bug): rendering a 2×2 image with one sampling pass leaves the
off-diagonal pixel (0, 1) with zero samples while the diagonal pixel (0, 0)
receives one, because the pixel loop is zip(range(width), range(height))
rather than a nested loop over all pixels. -/
theorem C2_render_visits_only_diagonal (tape : ℕ → ℝ) :
    (R2.render tape).1.map (fun img => img.sample_counts 0 1) = .ok 0 ∧
    (R2.render tape).1.map (fun img => img.sample_counts 0 0) = .ok 1 := by
  rw [R2_render_eval]
  constructor <;>
    norm_num [Except.map, PTrace.AccumulableImage.add_samples,
      PTrace.AccumulableImage.init]

end Theorems

end PTrace
